import Mathlib

/-!
Verification development for the base44-to-supabase migration engine.

This file gives a shallow embedding, in Lean 4, of the core of the
repository: the text-level import-specifier scanner (importScan.ts and its
private copy in verify.ts), the legacy-SDK classifier (sdkHeuristics.ts),
the verify scanner (verify.ts), the cleanup planner (cleanup code of the
codemods package), the convert/rewrite pipeline (convert.ts) and the
analysis pipeline (analyze.ts).  Paths are modelled as POSIX strings, the
filesystem as an explicit association list threaded through the functions,
and the syntax-tree library (ts-morph) as a small expression/statement AST
with a canonical rendering; positions are offsets into that rendering.
The host platform is modelled as linux (process.platform is not win32),
string comparison (localeCompare and default Array.sort) as code-point
order, and file operations as succeeding.

Definitions are translated from the TypeScript source; theorems settle the
specification claims against them.
-/

set_option maxRecDepth 100000

namespace B44

/-! ## Generic list and string utilities -/

/-- JS `new Set` insertion, tracking the elements already seen. -/
def dedupFirstAux (seen : List String) : List String → List String
  | [] => []
  | x :: xs =>
    if seen.any (fun y => y = x) then dedupFirstAux seen xs
    else x :: dedupFirstAux (x :: seen) xs

/-- JS `[...new Set(xs)]`: de-duplicate keeping the first occurrence, in order. -/
def dedupFirst (l : List String) : List String :=
  dedupFirstAux [] l

/-- Does the character list `hay` start with `pat`? -/
def startsWithL (hay pat : List Char) : Bool :=
  match pat, hay with
  | [], _ => true
  | _ :: _, [] => false
  | p :: ps, h :: hs => h = p && startsWithL hs ps

/-- Does `hay` contain `pat` as a contiguous sublist? (JS `String.prototype.includes`.) -/
def containsSubL (hay pat : List Char) : Bool :=
  match hay with
  | [] => startsWithL [] pat
  | _ :: hs => startsWithL hay pat || containsSubL hs pat

/-- JS `hay.includes(pat)` on strings. -/
def strContains (hay pat : String) : Bool :=
  containsSubL hay.data pat.data

/-- JS `s.startsWith(pat)`. -/
def strStartsWith (s pat : String) : Bool :=
  startsWithL s.data pat.data

/-- JS `s.endsWith(pat)`. -/
def strEndsWith (s pat : String) : Bool :=
  startsWithL s.data.reverse pat.data.reverse

/-- Split a character list at every occurrence of `sep` (the semantics of
`String.split` with a single-character separator). -/
def splitChar (sep : Char) : List Char → List String
  | [] => [""]
  | c :: cs =>
    if c = sep then "" :: splitChar sep cs
    else
      match splitChar sep cs with
      | [] => [⟨[c]⟩]
      | s :: rest => (⟨c :: s.data⟩ : String) :: rest

/-- JS `String.prototype.toLowerCase`, restricted to the ASCII range used here. -/
def jsToLower (s : String) : String :=
  ⟨s.data.map Char.toLower⟩

/-- Lexicographic (code-point) order on character lists, as `≤`. -/
def listLe : List Char → List Char → Bool
  | [], _ => true
  | _ :: _, [] => false
  | a :: as_, b :: bs =>
    if a.toNat < b.toNat then true
    else if b.toNat < a.toNat then false
    else listLe as_ bs

/-- JS string comparison (`<`/`localeCompare` modelled as code-point order). -/
def strLe (a b : String) : Bool :=
  listLe a.data b.data

/-- Stable insertion into a sorted list: `x` goes after every `y` with
`le y x` (so elements that compare equal keep their original order, as JS
`Array.prototype.sort` guarantees). -/
def orderedInsert (le : α → α → Bool) (x : α) : List α → List α
  | [] => [x]
  | y :: ys => if le y x then y :: orderedInsert le x ys else x :: y :: ys

/-- A stable sort (JS `Array.prototype.sort` with a consistent comparator:
any stable sort produces this same output). -/
def stableSort (le : α → α → Bool) (l : List α) : List α :=
  l.foldl (fun acc x => orderedInsert le x acc) []

/-- Ascending, stable sort in code-point order (JS `Array.prototype.sort()` on strings,
and the model of `localeCompare`-based sorts). -/
def sortStrings (xs : List String) : List String :=
  stableSort strLe xs

/-! ## importScan.ts — `findImportedModuleSpecifiers`

The scanner is the global regex
`(from\s+['"]([^'"]+)['"])|(require\s*\(\s*['"]([^'"]+)['"]\s*\))|(import\s*\(\s*['"]([^'"]+)['"]\s*\))`
executed repeatedly over the text.  Every alternative is deterministic
(each greedy sub-pattern is followed by a character it cannot consume), so
the scan is: at each position try the three alternatives in order; on a
match, emit the captured specifier and resume after the match; otherwise
advance one character.  The result is de-duplicated via `new Set`. -/

/-- JS `\s` (the whitespace characters relevant to source text). -/
def isJsWs (c : Char) : Bool :=
  c = ' ' || c = '\t' || c = '\n' || c = '\r' || c = '\x0b' || c = '\x0c'

/-- A quote character, `'` or `"`. -/
def isQuoteCh (c : Char) : Bool :=
  c = '\'' || c = '"'

/-- Consume the literal `pat` from the front of `cs`. -/
def eatLit : List Char → List Char → Option (List Char)
  | cs, [] => some cs
  | [], _ :: _ => none
  | c :: cs, p :: ps => if c = p then eatLit cs ps else none

/-- Consume one or more whitespace characters (`\s+`). -/
def eatWs1 (cs : List Char) : Option (List Char) :=
  match cs with
  | [] => none
  | c :: rest => if isJsWs c then some (rest.dropWhile isJsWs) else none

/-- Consume zero or more whitespace characters (`\s*`). -/
def eatWs0 (cs : List Char) : List Char :=
  cs.dropWhile isJsWs

/-- Consume `['"]([^'"]+)['"]`: a quote, one or more non-quote characters
(the captured specifier), and a closing quote (not necessarily matching). -/
def eatQuotedSpec (cs : List Char) : Option (String × List Char) :=
  match cs with
  | [] => none
  | q :: rest =>
    if isQuoteCh q then
      let body := rest.takeWhile (fun c => !isQuoteCh c)
      if body.isEmpty then none
      else
        match rest.drop body.length with
        | [] => none
        | q2 :: rest2 => if isQuoteCh q2 then some (⟨body⟩, rest2) else none
    else none

/-- Alternative 1: `from\s+['"]([^'"]+)['"]`. -/
def tryFromAlt (cs : List Char) : Option (String × List Char) := do
  let cs ← eatLit cs "from".data
  let cs ← eatWs1 cs
  eatQuotedSpec cs

/-- Alternatives 2 and 3: `NAME\s*\(\s*['"]([^'"]+)['"]\s*\)` for `require` / `import`. -/
def tryCallAlt (name : String) (cs : List Char) : Option (String × List Char) := do
  let cs ← eatLit cs name.data
  let cs := eatWs0 cs
  let cs ← eatLit cs ['(']
  let cs := eatWs0 cs
  let (spec, cs) ← eatQuotedSpec cs
  let cs := eatWs0 cs
  let cs ← eatLit cs [')']
  pure (spec, cs)

/-- One regex alternation attempt at the current position. -/
def tryAnyAlt (cs : List Char) : Option (String × List Char) :=
  match tryFromAlt cs with
  | some r => some r
  | none =>
    match tryCallAlt "require" cs with
    | some r => some r
    | none => tryCallAlt "import" cs

/-- The global scan; `fuel` bounds the number of steps (each step consumes
at least one character, so `cs.length` suffices). -/
def scanSpecifiersAux : Nat → List Char → List String
  | 0, _ => []
  | _ + 1, [] => []
  | fuel + 1, c :: cs =>
    match tryAnyAlt (c :: cs) with
    | some (spec, rest) => spec :: scanSpecifiersAux fuel rest
    | none => scanSpecifiersAux fuel cs

/-- importScan.ts `findImportedModuleSpecifiers`. -/
def findImportedModuleSpecifiers (text : String) : List String :=
  dedupFirst (scanSpecifiersAux text.data.length text.data)

/-! ## sdkHeuristics.ts -/

def DEFAULT_BASE44_IMPORT_SOURCES : List String :=
  ["base44", "@base44/sdk", "@base44/client", "base44-sdk"]

def isLikelyBase44ImportSource (moduleSpecifier : String) : Bool :=
  if DEFAULT_BASE44_IMPORT_SOURCES.contains moduleSpecifier then true
  else if strContains (jsToLower moduleSpecifier) "base44" then true
  else false

/-! ## POSIX path model (node:path on linux)

Absolute paths are strings beginning with `/`.  `toPosixPath` is the
identity on this model (path.sep is `/`). -/

/-- Split an absolute or relative path into its non-empty segments. -/
def pathSegs (p : String) : List String :=
  (splitChar '/' p.data).filter (fun s => s ≠ "")

/-- Rebuild an absolute path from segments. -/
def absOfSegs (segs : List String) : String :=
  "/" ++ String.intercalate "/" segs

/-- Resolve `.` and `..` segments against an accumulated (reversed) stack,
clamping `..` at the root as `path.resolve` does. -/
def normSegsAux : List String → List String → List String
  | acc, [] => acc.reverse
  | acc, s :: rest =>
    if s = "" || s = "." then normSegsAux acc rest
    else if s = ".." then normSegsAux (acc.drop 1) rest
    else normSegsAux (s :: acc) rest

/-- `path.resolve(dirAbs, spec)` for a relative `spec` against an absolute dir. -/
def pathResolve (dirAbs spec : String) : String :=
  absOfSegs (normSegsAux [] (pathSegs dirAbs ++ splitChar '/' spec.data))

/-- `path.dirname` on an absolute path. -/
def dirnameAbs (p : String) : String :=
  absOfSegs (pathSegs p).dropLast

/-- `path.basename`. -/
def basenameOf (p : String) : String :=
  ((pathSegs p).getLast?).getD ""

/-- `path.extname`: the suffix of the basename from its last `.`, empty when the
only `.` is the leading character (dotfiles have no extension). -/
def extnameOf (p : String) : String :=
  let b := basenameOf p
  let parts := splitChar '.' b.data
  match parts with
  | [] => ""
  | [_] => ""
  | first :: more =>
    if first = "" && more.length = 1 then ""
    else "." ++ (more.getLast?).getD ""

/-- `path.join` of an absolute path with relative parts. -/
def pathJoin (a b : String) : String :=
  absOfSegs (normSegsAux [] (pathSegs a ++ pathSegs b))

/-- Length of the longest shared leading run of two segment lists. -/
def sharedLeadLen : List String → List String → Nat
  | a :: as_, b :: bs => if a = b then sharedLeadLen as_ bs + 1 else 0
  | _, _ => 0

/-- `path.relative(fromAbs, toAbs)` on absolute POSIX paths. -/
def pathRelative (fromAbs toAbs : String) : String :=
  let f := pathSegs fromAbs
  let t := pathSegs toAbs
  let n := sharedLeadLen f t
  String.intercalate "/" (List.replicate (f.length - n) ".." ++ t.drop n)

/-- convert.ts / cleanup `rel`: `toPosixPath(path.relative(rootPath, abs))`. -/
def relPathOf (rootPath abs : String) : String :=
  pathRelative rootPath abs

/-! ## Text-level project filesystem

cleanup and verify read files only as raw text; the filesystem is an
association list from absolute POSIX path to file text, plus the parsed
dependency manifest (`package.json` at the root), kept separately because
it is the one non-source file the planner touches.  Directories are the
proper prefixes of file paths. -/

structure Pkg where
  dependencies : List (String × String)
  devDependencies : List (String × String)
  peerDependencies : List (String × String)
  optionalDependencies : List (String × String)
deriving Repr, DecidableEq

structure PFS where
  files : List (String × String)
  pkg : Option Pkg
deriving Repr, DecidableEq

def lookupFile (fs : PFS) (p : String) : Option String :=
  (fs.files.find? (fun f => f.1 = p)).map (fun f => f.2)

def fileExists (fs : PFS) (p : String) : Bool :=
  fs.files.any (fun f => f.1 = p)

def dirExists (fs : PFS) (p : String) : Bool :=
  fs.files.any (fun f => strStartsWith f.1 (p ++ "/"))

/-- `fs.stat` succeeds: the path is a file or a directory. -/
def statExists (fs : PFS) (p : String) : Bool :=
  fileExists fs p || dirExists fs p

/-- Is `abs` strictly below the directory `cwd`? -/
def isUnderDir (cwd abs : String) : Bool :=
  strStartsWith abs (cwd ++ "/")

/-- The path of `abs` relative to `cwd`, assuming `isUnderDir cwd abs`. -/
def relSegsUnder (cwd abs : String) : List String :=
  pathSegs (abs.drop (cwd.length + 1))

def sourceExts : List String := [".ts", ".tsx", ".js", ".jsx"]

def hasSourceExt (p : String) : Bool :=
  sourceExts.any (fun e => strEndsWith p e)

def excludedDirNames : List String :=
  ["node_modules", "dist", "build", ".next", ".turbo", ".git"]

/-- Does a path match fs.ts `findProjectSourceFiles`'s glob set under `cwd`:
`**/*.{ts,tsx,js,jsx}` with the build/dependency/VCS directories excluded
and (dot defaulting to false) no dotted segment? -/
def isProjectSourcePath (cwd p : String) : Bool :=
  isUnderDir cwd p &&
  hasSourceExt p &&
  (relSegsUnder cwd p).all (fun s =>
    !strStartsWith s "." && !excludedDirNames.contains s)

/-- fs.ts `findProjectSourceFiles` over the text filesystem, sorted ascending. -/
def findProjectSourceFilesIn (fs : PFS) (cwd : String) : List String :=
  sortStrings ((fs.files.map (fun f => f.1)).filter (isProjectSourcePath cwd))

/-! ## verify.ts -/

structure ModuleRef where
  file : String
  specifiers : List String
deriving Repr, DecidableEq

structure VerifyResult where
  rootPath : String
  filesScanned : Nat
  remainingBase44ModuleReferences : List ModuleRef
deriving Repr, DecidableEq

/-- The scanned entry for one file, if any specifier matches the classifier
(`verifyProject` uses the default import-source list, so the explicit
allow-list test is the same check again). -/
def verifyEntryFor (fs : PFS) (abs rootPath : String) : Option ModuleRef :=
  match lookupFile fs abs with
  | none => none
  | some text =>
    let allSpecifiers := findImportedModuleSpecifiers text
    let base44Specifiers := allSpecifiers.filter (fun s =>
      isLikelyBase44ImportSource s || DEFAULT_BASE44_IMPORT_SOURCES.contains s)
    if base44Specifiers.isEmpty then none
    else some ⟨relPathOf rootPath abs, base44Specifiers⟩

/-- verify.ts `verifyProject` (concurrent reads merged and then sorted by file;
modelled sequentially, which yields the same sorted result). -/
def verifyProject (fs : PFS) (rootPath : String) : VerifyResult :=
  let sourceFiles := findProjectSourceFilesIn fs rootPath
  let remaining := stableSort (fun a b => strLe a.file b.file)
    (sourceFiles.filterMap (fun abs => verifyEntryFor fs abs rootPath))
  { rootPath := rootPath
    filesScanned := sourceFiles.length
    remainingBase44ModuleReferences := remaining }

/-! ## Cleanup planner

The cleanup code reads files only as text; its filesystem effects are
removing a file, removing a directory tree, renaming a file into the
quarantine directory, and rewriting the manifest.  `process.platform` is
linux, so `key` is `path.resolve` = the identity on our already-absolute
paths. -/

inductive CMode where
  | dryRun
  | delete
deriving Repr, DecidableEq

structure CleanupOpts where
  rootPath : String
  mode : Option CMode
  removeDependencies : Option Bool
  removeBase44FunctionsDir : Option Bool
  aggressive : Option Bool
  quarantineDir : Option String
deriving Repr, DecidableEq

structure SkipEntry where
  path : String
  reason : String
deriving Repr, DecidableEq

structure CleanupResult where
  deletedPaths : List String
  quarantinedPaths : List String
  skippedPaths : List SkipEntry
  removedDependencies : List String
deriving Repr, DecidableEq

/-- Remove a single file from the store. -/
def rmFile (fs : PFS) (p : String) : PFS :=
  { fs with files := fs.files.filter (fun f => f.1 ≠ p) }

/-- `fs.rm(p, { recursive: true })`: remove the directory tree rooted at `p`. -/
def rmDirRec (fs : PFS) (p : String) : PFS :=
  { fs with files := fs.files.filter (fun f => !strStartsWith f.1 (p ++ "/")) }

/-- `fs.rename(src, dst)` (the copy+delete fallback is behaviourally the same here). -/
def renameFile (fs : PFS) (src dst : String) : PFS :=
  match lookupFile fs src with
  | none => fs
  | some text =>
    { fs with files := (fs.files.filter (fun f => f.1 ≠ src && f.1 ≠ dst)) ++ [(dst, text)] }

/-- cleanup `removeMatchingDeps`. -/
def removeMatchingDeps (pkg : Pkg) (pred : String → Bool) : List String × Pkg :=
  let removed :=
    (pkg.dependencies.map (fun d => d.1)).filter pred ++
    (pkg.devDependencies.map (fun d => d.1)).filter pred ++
    (pkg.peerDependencies.map (fun d => d.1)).filter pred ++
    (pkg.optionalDependencies.map (fun d => d.1)).filter pred
  let updated : Pkg :=
    { dependencies := pkg.dependencies.filter (fun d => !pred d.1)
      devDependencies := pkg.devDependencies.filter (fun d => !pred d.1)
      peerDependencies := pkg.peerDependencies.filter (fun d => !pred d.1)
      optionalDependencies := pkg.optionalDependencies.filter (fun d => !pred d.1) }
  (sortStrings (dedupFirst removed), updated)

/-- cleanup `resolveRelativeImport`. -/
def resolveRelativeImport (fs : PFS) (fromFileAbs spec : String) : Option String :=
  let base := pathResolve (dirnameAbs fromFileAbs) spec
  if extnameOf base ≠ "" then
    if statExists fs base then some base else none
  else
    let tryFiles := [base ++ ".ts", base ++ ".tsx", base ++ ".js", base ++ ".jsx",
      pathJoin base "index.ts", pathJoin base "index.tsx",
      pathJoin base "index.js", pathJoin base "index.jsx"]
    tryFiles.find? (fun p => statExists fs p)

/-- Add an importer to the reverse index entry for `k` (a `Set`, so the importer
is kept once, in insertion order). -/
def reverseIndexAdd (idx : List (String × List String)) (k imp : String) :
    List (String × List String) :=
  match idx with
  | [] => [(k, [imp])]
  | (k', imps) :: rest =>
    if k' = k then (k', if imps.contains imp then imps else imps ++ [imp]) :: rest
    else (k', imps) :: reverseIndexAdd rest k imp

def reverseIndexGet (idx : List (String × List String)) (k : String) : List String :=
  ((idx.find? (fun e => e.1 = k)).map (fun e => e.2)).getD []

/-- cleanup `buildImportReverseIndex`: for each source file, resolve each of its
relative specifiers and record the importer. -/
def buildImportReverseIndex (fs : PFS) (rootPath : String) :
    List (String × List String) :=
  (findProjectSourceFilesIn fs rootPath).foldl (fun idx fromAbs =>
    match lookupFile fs fromAbs with
    | none => idx
    | some text =>
      let specifiers := findImportedModuleSpecifiers text
      let relatives := specifiers.filter (fun s => strStartsWith s ".")
      relatives.foldl (fun idx spec =>
        match resolveRelativeImport fs fromAbs spec with
        | none => idx
        | some resolved => reverseIndexAdd idx resolved fromAbs) idx) []

/-- cleanup `isBase44OnlyFile`. -/
def isBase44OnlyFile (text : String) : Bool :=
  (findImportedModuleSpecifiers text).any isLikelyBase44ImportSource

/-- cleanup `listBase44ModuleReferencesInDir`: does any `**/*.{ts,tsx,js,jsx}`
file under the directory (dot allowed, node_modules/dist excluded) have a
specifier matching the classifier? -/
def listBase44ModuleReferencesInDir (fs : PFS) (dirAbs : String) : Bool :=
  fs.files.any (fun f =>
    isUnderDir dirAbs f.1 &&
    hasSourceExt f.1 &&
    (relSegsUnder dirAbs f.1).all (fun s => s ≠ "node_modules" && s ≠ "dist") &&
    (findImportedModuleSpecifiers f.2).any isLikelyBase44ImportSource)

/-- The character list after the first occurrence of `pat` in `hay`, if any. -/
def afterFirstSub : List Char → List Char → Option (List Char)
  | hay, pat =>
    match hay with
    | [] => if startsWithL [] pat then some [] else none
    | _ :: hs =>
      if startsWithL hay pat then some (hay.drop pat.length)
      else afterFirstSub hs pat

/-- Does the basename match `*base44*client*.{ts,tsx,js,jsx}`? -/
def matchesBase44ClientName (bn : String) : Bool :=
  hasSourceExt bn &&
  (match afterFirstSub bn.data "base44".data with
   | none => false
   | some rest => containsSubL rest "client".data)

/-- The fixed candidate glob set of the per-file cleanup step, as a predicate on
the root-relative segments of an entry (fast-glob with dot:true; `**`
matches zero or more segments; `x/**` matches entries strictly inside `x`). -/
def matchesCleanupPattern (segs : List String) : Bool :=
  (segs.all (fun s => !excludedDirNames.contains s)) &&
  (match segs with
   | [b] => strStartsWith b "base44."
   | s :: _ :: _ =>
     (s = ".base44") ||
     (s = "src" &&
       (let bn := (segs.getLast?).getD ""
        (hasSourceExt bn &&
          (strStartsWith bn "base44" || strStartsWith bn "Base44")) ||
        matchesBase44ClientName bn))
   | _ => false)

/-- The proper ancestor directories of a file path, strictly between `root` and
the file. -/
def ancestorDirsUnder (root p : String) : List String :=
  let segs := relSegsUnder root p
  (List.range (segs.length - 1)).map (fun i =>
    root ++ "/" ++ String.intercalate "/" (segs.take (i + 1)))

/-- All entries (files and derived directories) strictly under `root`. -/
def entriesUnder (fs : PFS) (root : String) : List String :=
  dedupFirst
    ((fs.files.map (fun f => f.1)).filter (isUnderDir root) ++
      fs.files.flatMap (fun f =>
        if isUnderDir root f.1 then ancestorDirsUnder root f.1 else []))

/-- The matched, `localeCompare`-sorted candidate list of the per-file step. -/
def cleanupCandidates (fs : PFS) (root : String) : List String :=
  sortStrings ((entriesUnder fs root).filter (fun p =>
    matchesCleanupPattern (relSegsUnder root p)))

/-- JSON.stringify of a plain string (escaping the characters that occur in
module specifiers). -/
def jsonStr (s : String) : String :=
  "\"" ++ ⟨s.data.flatMap (fun c =>
    if c = '"' || c = '\\' then ['\\', c] else [c])⟩ ++ "\""

structure CleanState where
  fs : PFS
  deletedPaths : List String
  quarantinedPaths : List String
  skippedPaths : List SkipEntry
deriving Repr, DecidableEq

/-- One iteration of the candidate loop of `cleanupProject`. -/
def cleanupCandidateStep (importedBy : List (String × List String)) (root : String)
    (mode : CMode) (st : CleanState) (abs : String) : CleanState :=
  if dirExists st.fs abs then
    if basenameOf abs ≠ ".base44" then st
    else
      { st with
        fs := if mode = .delete then rmDirRec st.fs abs else st.fs
        deletedPaths := st.deletedPaths ++ [relPathOf root abs] }
  else if fileExists st.fs abs then
    match lookupFile st.fs abs with
    | none => st
    | some text =>
      if !isBase44OnlyFile text then st
      else
        let importers := reverseIndexGet importedBy abs
        if importers.length > 0 then
          let sample := (importers.take 3).map (relPathOf root)
          let reason := "Still imported by: " ++ String.intercalate ", " sample ++
            (if importers.length > 3 then ", ..." else "")
          { st with
            skippedPaths := st.skippedPaths ++ [⟨relPathOf root abs, reason⟩] }
        else
          { st with
            fs := if mode = .delete then rmFile st.fs abs else st.fs
            deletedPaths := st.deletedPaths ++ [relPathOf root abs] }
  else st

/-- One iteration of the aggressive-quarantine loop. -/
def aggressiveStep (root quarantineDirRel : String) (mode : CMode)
    (st : CleanState) (abs : String) : CleanState :=
  match lookupFile st.fs abs with
  | none => st
  | some text =>
    let specs := (findImportedModuleSpecifiers text).filter isLikelyBase44ImportSource
    if specs.isEmpty then st
    else
      let r := relPathOf root abs
      if mode = .delete then
        let targetAbs := pathJoin (pathJoin root quarantineDirRel) r
        { st with
          fs := renameFile st.fs abs targetAbs
          quarantinedPaths := st.quarantinedPaths ++ [r]
          deletedPaths := st.deletedPaths ++ [r] }
      else
        let reason := "Would quarantine (aggressive) because it references Base44 modules: " ++
          String.intercalate ", " (specs.map jsonStr)
        { st with skippedPaths := st.skippedPaths ++ [⟨r, reason⟩] }

/-- The functions-directory step of `cleanupProject`. -/
def functionsDirStage (fs0 : PFS) (options : CleanupOpts) : CleanState :=
  let mode := options.mode.getD .dryRun
  let removeBase44FunctionsDir := options.removeBase44FunctionsDir.getD true
  let root := options.rootPath
  let functionsDirAbs := pathJoin root "functions"
  if removeBase44FunctionsDir && !fileExists fs0 functionsDirAbs &&
      dirExists fs0 functionsDirAbs &&
      listBase44ModuleReferencesInDir fs0 functionsDirAbs then
    { fs := if mode = .delete then rmDirRec fs0 functionsDirAbs else fs0
      deletedPaths := [relPathOf root functionsDirAbs]
      quarantinedPaths := []
      skippedPaths := [] }
  else
    { fs := fs0, deletedPaths := [], quarantinedPaths := [], skippedPaths := [] }

/-- The per-file candidate loop of `cleanupProject`. -/
def candidateStage (fs0 : PFS) (options : CleanupOpts) (st1 : CleanState) : CleanState :=
  (cleanupCandidates st1.fs options.rootPath).foldl
    (cleanupCandidateStep (buildImportReverseIndex fs0 options.rootPath) options.rootPath
      (options.mode.getD .dryRun)) st1

/-- The aggressive-quarantine loop of `cleanupProject`. -/
def aggressiveStage (options : CleanupOpts) (st2 : CleanState) : CleanState :=
  if options.aggressive.getD false then
    (findProjectSourceFilesIn st2.fs options.rootPath).foldl
      (aggressiveStep options.rootPath (options.quarantineDir.getD ".base44-to-supabase/removed")
        (options.mode.getD .dryRun)) st2
  else st2

/-- The filesystem state after the three deletion/quarantine steps of
`cleanupProject`. -/
def cleanupCore (fs0 : PFS) (options : CleanupOpts) : CleanState :=
  aggressiveStage options (candidateStage fs0 options (functionsDirStage fs0 options))

/-- The skip reason of the dependency-prune gate. -/
def pruneBlockedReason (n : Nat) : String :=
  "Not removing Base44 dependencies because " ++ toString n ++
    " file(s) still reference Base44 modules. Run verify/convert first."

/-- cleanup `cleanupProject`, returning the final filesystem and the result. -/
def cleanupProject (fs0 : PFS) (options : CleanupOpts) : PFS × CleanupResult :=
  let mode := options.mode.getD .dryRun
  let root := options.rootPath
  let st3 := cleanupCore fs0 options
  -- Step: optional dependency pruning, gated on a clean verify.
  if options.removeDependencies.getD false then
    let verify := verifyProject st3.fs root
    if verify.remainingBase44ModuleReferences.length > 0 then
      (st3.fs,
        { deletedPaths := st3.deletedPaths
          quarantinedPaths := st3.quarantinedPaths
          skippedPaths := st3.skippedPaths ++
            [⟨"package.json", pruneBlockedReason verify.remainingBase44ModuleReferences.length⟩]
          removedDependencies := [] })
    else
      match st3.fs.pkg with
      | none =>
        (st3.fs,
          { deletedPaths := st3.deletedPaths
            quarantinedPaths := st3.quarantinedPaths
            skippedPaths := st3.skippedPaths
            removedDependencies := [] })
      | some pkg =>
        let rd := removeMatchingDeps pkg (fun name => strContains (jsToLower name) "base44")
        let fs' :=
          if rd.1.length > 0 && mode = .delete then { st3.fs with pkg := some rd.2 }
          else st3.fs
        (fs',
          { deletedPaths := st3.deletedPaths
            quarantinedPaths := st3.quarantinedPaths
            skippedPaths := st3.skippedPaths
            removedDependencies :=
              if rd.1.length > 0 then sortStrings (dedupFirst rd.1) else [] })
  else
    (st3.fs,
      { deletedPaths := st3.deletedPaths
        quarantinedPaths := st3.quarantinedPaths
        skippedPaths := st3.skippedPaths
        removedDependencies := [] })

/-! ## Syntax-tree model (ts-morph as external collaborator)

convert.ts works on parsed source files.  A file is a list of statements;
expressions keep just the structure the rewriter inspects (identifiers,
property accesses, call expressions, string literals) with everything else
carried as raw text.  `getText()` is the canonical rendering; source
positions are offsets into that rendering.  `replaceWithText` swaps a
subtree for raw text, which forgets the nodes inside it (a forgotten
node's path no longer resolves to a call). -/

mutual

inductive Expr where
  | identE (name : String)
  | propE (obj : Expr) (prop : String)
  | callEx (fn : Expr) (args : List Expr)
  | strLitE (raw : String)
  | objLitE (props : List ObjProp)
  | mixE (parts : List Expr)
  | rawE (text : String)
deriving Repr

/-- A member of an object literal: a property assignment (the only kind the
analysis reads), or anything else as raw text. -/
inductive ObjProp where
  | assignProp (name : String) (value : Expr)
  | otherProp (text : String)
deriving Repr

end

mutual

/-- `node.getText()`. -/
def exprText : Expr → String
  | .identE n => n
  | .propE o p => exprText o ++ "." ++ p
  | .callEx f args => exprText f ++ "(" ++ String.intercalate ", " (exprTextList args) ++ ")"
  | .strLitE r => r
  | .objLitE props => "\x7b " ++ String.intercalate ", " (objPropTextList props) ++ " \x7d"
  | .mixE parts => String.join (exprTextList parts)
  | .rawE t => t

def exprTextList : List Expr → List String
  | [] => []
  | e :: es => exprText e :: exprTextList es

def objPropText : ObjProp → String
  | .assignProp n v => n ++ ": " ++ exprText v
  | .otherProp t => t

def objPropTextList : List ObjProp → List String
  | [] => []
  | p :: ps => objPropText p :: objPropTextList ps

end

/-- Fetch the subexpression at a child path (propE child 0 = object;
callEx child 0 = callee, child i+1 = argument i; mixE child i = part i). -/
def getSub : Expr → List Nat → Option Expr
  | e, [] => some e
  | .propE o _, 0 :: rest => getSub o rest
  | .callEx f _, 0 :: rest => getSub f rest
  | .callEx _ args, (i + 1) :: rest =>
    match args.get? i with
    | some a => getSub a rest
    | none => none
  | .mixE parts, i :: rest =>
    match parts.get? i with
    | some a => getSub a rest
    | none => none
  | .objLitE props, i :: rest =>
    match props.get? i with
    | some (.assignProp _ v) => getSub v rest
    | _ => none
  | _, _ :: _ => none

def modifyIdx : List Expr → Nat → (Expr → Expr) → List Expr
  | [], _, _ => []
  | x :: xs, 0, f => f x :: xs
  | x :: xs, n + 1, f => x :: modifyIdx xs n f

def modifyPropIdx : List ObjProp → Nat → (Expr → Expr) → List ObjProp
  | [], _, _ => []
  | .assignProp n v :: xs, 0, f => .assignProp n (f v) :: xs
  | x :: xs, 0, _ => x :: xs
  | x :: xs, n + 1, f => x :: modifyPropIdx xs n f

/-- `node.replaceWithText(t)` at a child path. -/
def replaceSub : Expr → List Nat → String → Expr
  | _, [], t => .rawE t
  | .propE o p, 0 :: rest, t => .propE (replaceSub o rest t) p
  | .callEx f args, 0 :: rest, t => .callEx (replaceSub f rest t) args
  | .callEx f args, (i + 1) :: rest, t => .callEx f (modifyIdx args i (fun a => replaceSub a rest t))
  | .mixE parts, i :: rest, t => .mixE (modifyIdx parts i (fun a => replaceSub a rest t))
  | .objLitE props, i :: rest, t => .objLitE (modifyPropIdx props i (fun a => replaceSub a rest t))
  | e, _ :: _, _ => e

mutual

/-- All call-expression nodes of an expression in document (pre-order) order,
with their child paths and their start offsets in the rendering. -/
def collectCallsE : Expr → Nat → List Nat → List (List Nat × Nat)
  | .identE _, _, _ => []
  | .strLitE _, _, _ => []
  | .rawE _, _, _ => []
  | .propE o _, off, path => collectCallsE o off (path ++ [0])
  | .callEx f args, off, path =>
    (path, off) ::
      (collectCallsE f off (path ++ [0]) ++
        collectCallsArgs args (off + (exprText f).length + 1) path 1)
  | .objLitE props, off, path => collectCallsProps props (off + 2) path 0
  | .mixE parts, off, path => collectCallsParts parts off path 0

def collectCallsArgs : List Expr → Nat → List Nat → Nat → List (List Nat × Nat)
  | [], _, _, _ => []
  | a :: rest, off, path, i =>
    collectCallsE a off (path ++ [i]) ++
      collectCallsArgs rest (off + (exprText a).length + 2) path (i + 1)

def collectCallsParts : List Expr → Nat → List Nat → Nat → List (List Nat × Nat)
  | [], _, _, _ => []
  | a :: rest, off, path, i =>
    collectCallsE a off (path ++ [i]) ++
      collectCallsParts rest (off + (exprText a).length) path (i + 1)

def collectCallsProps : List ObjProp → Nat → List Nat → Nat → List (List Nat × Nat)
  | [], _, _, _ => []
  | .assignProp n v :: rest, off, path, i =>
    collectCallsE v (off + n.length + 2) (path ++ [i]) ++
      collectCallsProps rest (off + (objPropText (.assignProp n v)).length + 2) path (i + 1)
  | .otherProp t :: rest, off, path, i =>
    collectCallsProps rest (off + t.length + 2) path (i + 1)

end

structure NamedBinding where
  name : String
  aliasTo : Option String
deriving Repr, DecidableEq

structure ImportDecl where
  specifier : String
  defaultName : Option String
  namespaceName : Option String
  named : List NamedBinding
  typeOnly : Bool
deriving Repr, DecidableEq

inductive Stmt where
  | importStmt (d : ImportDecl)
  | exprStmt (e : Expr)
  | declStmt (e : Expr)
  | commentStmt (text : String)
deriving Repr

def renderNamedBinding (b : NamedBinding) : String :=
  b.name ++ (match b.aliasTo with
    | some a => " as " ++ a
    | none => "")

/-- Canonical rendering of an import declaration (single quotes; the tool's
own inserted import uses double quotes in the source, but no behaviour in
scope depends on the quote style, and the scanner accepts both). -/
def renderImport (d : ImportDecl) : String :=
  let clauses :=
    (match d.defaultName with
      | some n => [n]
      | none => []) ++
    (match d.namespaceName with
      | some n => ["* as " ++ n]
      | none => []) ++
    (if d.named.isEmpty then []
     else ["\x7b " ++ String.intercalate ", " (d.named.map renderNamedBinding) ++ " \x7d"])
  "import " ++ (if d.typeOnly then "type " else "") ++
    (if clauses.isEmpty then "" else String.intercalate ", " clauses ++ " from ") ++
    "'" ++ d.specifier ++ "';"

def renderStmt : Stmt → String
  | .importStmt d => renderImport d
  | .exprStmt e => exprText e ++ ";"
  | .declStmt e => exprText e
  | .commentStmt t => t

structure SFile where
  stmts : List Stmt
deriving Repr

/-- `sf.getFullText()` in the canonical rendering: statements joined by
newlines. -/
def renderSFile (sf : SFile) : String :=
  String.intercalate "\n" (sf.stmts.map renderStmt)

/-- A plain-text file wrapped as a (never re-inspected) single raw statement. -/
def rawSFile (t : String) : SFile :=
  ⟨[.declStmt (.rawE t)]⟩

def stmtExpr : Stmt → Option Expr
  | .exprStmt e => some e
  | .declStmt e => some e
  | _ => none

/-- All call expressions of the file in document order with absolute offsets. -/
def fileCallsPre (sf : SFile) : List ((Nat × List Nat) × Nat) :=
  (sf.stmts.foldl (fun (acc : Nat × Nat × List ((Nat × List Nat) × Nat)) st =>
    let (i, off, out) := acc
    let here :=
      match stmtExpr st with
      | some e => (collectCallsE e off []).map (fun c => ((i, c.1), c.2))
      | none => []
    (i + 1, off + (renderStmt st).length + 1, out ++ here)) (0, 0, [])).2.2

/-- convert.ts `getCallSnapshotReverse`: the snapshot sorted bottom-to-top
(descending start offset; the JS comparator sort is stable). -/
def getCallSnapshotReverse (sf : SFile) : List ((Nat × List Nat) × Nat) :=
  stableSort (fun a b => b.2 ≤ a.2) (fileCallsPre sf)

/-- Resolve a snapshot entry in the current tree; `none` models
`call.wasForgotten()` (or the node no longer being a call). -/
def resolveCall (sf : SFile) (key : Nat × List Nat) : Option (Expr × List Expr) :=
  match sf.stmts.get? key.1 with
  | none => none
  | some st =>
    match stmtExpr st with
    | none => none
    | some e =>
      match getSub e key.2 with
      | some (.callEx f args) => some (f, args)
      | _ => none

/-- `call.replaceWithText(t)` for a snapshot entry. -/
def replaceCallInFile (sf : SFile) (key : Nat × List Nat) (t : String) : SFile :=
  ⟨sf.stmts.mapIdx (fun i st =>
    if i = key.1 then
      match st with
      | .exprStmt e => .exprStmt (replaceSub e key.2 t)
      | .declStmt e => .declStmt (replaceSub e key.2 t)
      | other => other
    else st)⟩

/-! ## convert.ts -/

structure Base44Bindings where
  namespaceLike : List String
  auth : List String
  collections : List String
  storage : List String
deriving Repr, DecidableEq

def importOf : Stmt → Option ImportDecl
  | .importStmt d => some d
  | _ => none

/-- convert.ts `findBase44Imports`. -/
def findBase44Imports (sf : SFile) : List ImportDecl :=
  (sf.stmts.filterMap importOf).filter (fun d => isLikelyBase44ImportSource d.specifier)

/-- convert.ts `removeBase44Imports` (the resulting tree; the function's
return value is the removed list, already captured by `findBase44Imports`). -/
def removeBase44Imports (sf : SFile) : SFile :=
  ⟨sf.stmts.filter (fun st =>
    match importOf st with
    | some d => !isLikelyBase44ImportSource d.specifier
    | none => true)⟩

/-- convert.ts `extractBindings`. -/
def extractBindings (removed : List ImportDecl) : Base44Bindings :=
  let b := removed.foldl (fun (b : Base44Bindings) imp =>
    let b :=
      match imp.defaultName with
      | some d => { b with namespaceLike := b.namespaceLike ++ [d] }
      | none => b
    let b :=
      match imp.namespaceName with
      | some ns => { b with namespaceLike := b.namespaceLike ++ [ns] }
      | none => b
    imp.named.foldl (fun b n =>
      let imported := n.name
      let localName := n.aliasTo.getD imported
      let lower := jsToLower imported
      let b := if lower = "auth" then { b with auth := b.auth ++ [localName] } else b
      let b := if lower = "collections" || lower = "collection" then
        { b with collections := b.collections ++ [localName] } else b
      if lower = "storage" then { b with storage := b.storage ++ [localName] } else b) b)
    ⟨[], [], [], []⟩
  ⟨dedupFirst b.namespaceLike, dedupFirst b.auth, dedupFirst b.collections, dedupFirst b.storage⟩

/-- convert.ts `isAuthReceiver`. -/
def isAuthReceiver (e : Expr) (b : Base44Bindings) : Bool :=
  match e with
  | .identE n => b.auth.contains n
  | .propE o p => b.namespaceLike.any (fun ns => exprText o = ns && p = "auth")
  | _ => false

/-- convert.ts `isStorageReceiver`. -/
def isStorageReceiver (e : Expr) (b : Base44Bindings) : Bool :=
  match e with
  | .identE n => b.storage.contains n
  | .propE o p => b.namespaceLike.any (fun ns => exprText o = ns && p = "storage")
  | _ => false

/-- convert.ts `isCollectionsCallee` applied to the inner call's expression. -/
def isCollectionsCallee (fn : Expr) (b : Base44Bindings) : Bool :=
  match fn with
  | .identE n => b.collections.contains n
  | .propE o p =>
    b.namespaceLike.any (fun ns => exprText o = ns && (p = "collections" || p = "collection"))
  | _ => false

/-- convert.ts `rewriteAuthCalls`. -/
def rewriteAuthCalls (sf : SFile) (b : Base44Bindings) : SFile × Nat :=
  (getCallSnapshotReverse sf).foldl (fun (acc : SFile × Nat) c =>
    let (sf, rewritten) := acc
    match resolveCall sf c.1 with
    | none => (sf, rewritten)
    | some (fn, args) =>
      match fn with
      | .propE recv method =>
        if !isAuthReceiver recv b then (sf, rewritten)
        else if method ≠ "signIn" && method ≠ "signOut" && method ≠ "getUser" then
          (sf, rewritten)
        else
          (replaceCallInFile sf c.1
            ("backend.auth." ++ method ++ "(" ++
              String.intercalate ", " (args.map exprText) ++ ")"),
           rewritten + 1)
      | _ => (sf, rewritten)) (sf, 0)

/-- convert.ts `rewriteStorageCalls`. -/
def rewriteStorageCalls (sf : SFile) (b : Base44Bindings) : SFile × Nat × Nat :=
  (getCallSnapshotReverse sf).foldl (fun (acc : SFile × Nat × Nat) c =>
    let (sf, rewritten, unknown) := acc
    match resolveCall sf c.1 with
    | none => (sf, rewritten, unknown)
    | some (fn, args) =>
      match fn with
      | .propE recv method =>
        if !isStorageReceiver recv b then (sf, rewritten, unknown)
        else if method = "upload" || method = "download" then
          (replaceCallInFile sf c.1
            ("backend.storage." ++ method ++ "(" ++
              String.intercalate ", " (args.map exprText) ++ ")"),
           rewritten + 1, unknown)
        else (sf, rewritten, unknown + 1)
      | _ => (sf, rewritten, unknown)) (sf, 0, 0)

inductive CrudStep where
  | noMatch
  | entityUnknown
  | shapeUnknown
  | rewriteTo (t : String)
deriving Repr, DecidableEq

/-- The per-call decision of convert.ts `rewriteCollectionsCrud` on a call
with callee `fn` and arguments `args` (the `collections('entity').method(...)`
pattern match and the method/arity dispatch). -/
def crudDecide (b : Base44Bindings) (fn : Expr) (args : List Expr) : CrudStep :=
  match fn with
  | .propE receiver method =>
    match receiver with
    | .callEx innerFn innerArgs =>
      if !isCollectionsCallee innerFn b then .noMatch
      else
        match innerArgs.head? with
        | none => .entityUnknown
        | some entityArg =>
          match entityArg with
          | .strLitE entityText =>
            let argTexts := args.map exprText
            if method = "create" then
              match argTexts with
              | [] => .shapeUnknown
              | a0 :: _ => .rewriteTo ("backend.data.create(" ++ entityText ++ ", " ++ a0 ++ ")")
            else if method = "update" then
              match argTexts with
              | [a0, a1] =>
                .rewriteTo ("backend.data.update(" ++ entityText ++ ", " ++ a0 ++ ", " ++ a1 ++ ")")
              | _ => .shapeUnknown
            else if method = "delete" || method = "remove" then
              match argTexts with
              | [] => .shapeUnknown
              | a0 :: _ => .rewriteTo ("backend.data.delete(" ++ entityText ++ ", " ++ a0 ++ ")")
            else if method = "get" || method = "read" then
              match argTexts with
              | [] => .rewriteTo ("backend.data.read(" ++ entityText ++ ")")
              | a0 :: _ =>
                .rewriteTo ("backend.data.read(" ++ entityText ++ ", \x7b id: " ++ a0 ++ " \x7d)")
            else if method = "list" || method = "all" then
              match argTexts with
              | [] => .rewriteTo ("backend.data.read(" ++ entityText ++ ")")
              | a0 :: _ =>
                .rewriteTo ("backend.data.read(" ++ entityText ++ ", \x7b filter: " ++ a0 ++ " \x7d)")
            else if method = "find" then
              match argTexts with
              | [] => .shapeUnknown
              | a0 :: _ =>
                .rewriteTo ("backend.data.read(" ++ entityText ++ ", \x7b filter: " ++ a0 ++ " \x7d)")
            else .shapeUnknown
          | _ => .entityUnknown
    | _ => .noMatch
  | _ => .noMatch

structure CrudCounts where
  rewritten : Nat
  unknown : Nat
  unknownEntities : Nat
deriving Repr, DecidableEq

/-- convert.ts `rewriteCollectionsCrud`. -/
def rewriteCollectionsCrud (sf : SFile) (b : Base44Bindings) : SFile × CrudCounts :=
  (getCallSnapshotReverse sf).foldl (fun (acc : SFile × CrudCounts) c =>
    let (sf, counts) := acc
    match resolveCall sf c.1 with
    | none => (sf, counts)
    | some (fn, args) =>
      match crudDecide b fn args with
      | .noMatch => (sf, counts)
      | .entityUnknown => (sf, { counts with unknownEntities := counts.unknownEntities + 1 })
      | .shapeUnknown => (sf, { counts with unknown := counts.unknown + 1 })
      | .rewriteTo t =>
        (replaceCallInFile sf c.1 t, { counts with rewritten := counts.rewritten + 1 }))
    (sf, ⟨0, 0, 0⟩)

/-- The length of the directive prologue: leading expression statements whose
expression is a string literal. -/
def directivePrefixLen : List Stmt → Nat
  | .exprStmt (.strLitE _) :: rest => directivePrefixLen rest + 1
  | _ => 0

/-- The index just past the last import declaration (ts-morph
`addImportDeclaration` inserts there). -/
def afterLastImportIdx : List Stmt → Nat
  | [] => 0
  | st :: rest =>
    if afterLastImportIdx rest > 0 then afterLastImportIdx rest + 1
    else
      match st with
      | .importStmt _ => 1
      | _ => 0

def backendNamedImport (moduleSpecifier : String) : Stmt :=
  .importStmt ⟨moduleSpecifier, none, none, [⟨"backend", none⟩], false⟩

/-- convert.ts `ensureBackendImport`. -/
def ensureBackendImport (sf : SFile) (moduleSpecifier : String) : SFile :=
  if (sf.stmts.filterMap importOf).any (fun d => d.specifier = moduleSpecifier) then sf
  else if (sf.stmts.filterMap importOf).length > 0 then
    let i := afterLastImportIdx sf.stmts
    ⟨sf.stmts.take i ++ [backendNamedImport moduleSpecifier] ++ sf.stmts.drop i⟩
  else
    let i := directivePrefixLen sf.stmts
    ⟨sf.stmts.take i ++ [backendNamedImport moduleSpecifier] ++ sf.stmts.drop i⟩

/-- convert.ts regex `\.(ts|tsx|js|jsx)$` removal. -/
def stripSourceExt (p : String) : String :=
  if strEndsWith p ".tsx" then p.dropRight 4
  else if strEndsWith p ".ts" then p.dropRight 3
  else if strEndsWith p ".jsx" then p.dropRight 4
  else if strEndsWith p ".js" then p.dropRight 3
  else p

/-- convert.ts `computeBackendImport`. -/
def computeBackendImport (fromFileAbs rootPath backendEntryAbs : String) : String :=
  let fromDir := dirnameAbs fromFileAbs
  let backendAbsNoExt := stripSourceExt backendEntryAbs
  let posix := pathRelative fromDir backendAbsNoExt
  let withExt := if strEndsWith posix ".js" then posix else posix ++ ".js"
  if strStartsWith withExt "." then withExt else "./" ++ withExt

inductive BackendMode where
  | supabase
  | localMode
deriving Repr, DecidableEq

structure ConvertOpts where
  rootPath : String
  backendMode : Option BackendMode
  entryPath : Option String
  envExamplePath : Option String
deriving Repr, DecidableEq

structure ConversionTodo where
  file : String
  message : String
deriving Repr, DecidableEq

/-- The structured project store convert works on. -/
structure CFS where
  files : List (String × SFile)
deriving Repr

def lookupSF (fs : CFS) (p : String) : Option SFile :=
  (fs.files.find? (fun f => f.1 = p)).map (fun f => f.2)

def writeSF (fs : CFS) (p : String) (sf : SFile) : CFS :=
  if fs.files.any (fun f => f.1 = p) then
    ⟨fs.files.map (fun f => if f.1 = p then (p, sf) else f)⟩
  else ⟨fs.files ++ [(p, sf)]⟩

def findProjectSourceFilesC (fs : CFS) (cwd : String) : List String :=
  sortStrings ((fs.files.map (fun f => f.1)).filter (isProjectSourcePath cwd))

def manualReviewComment : String :=
  "// TODO(base44-to-supabase): Some Base44 usage could not be safely converted. Review this file and route remaining calls through backend.auth/backend.data/backend.storage."

/-- Per-file statistics of one conversion (internal counters of the loop
body; the file-needs-review flag is `unknown > 0 || rewritten = 0`). -/
structure FileStats where
  rewritten : Nat
  unknown : Nat
  crud : CrudCounts
  storageUnknown : Nat
deriving Repr, DecidableEq

/-- The body of convert.ts's per-file loop for a file with at least one
legacy import: returns the mutated tree and the statistics. -/
def convertFileBody (sf : SFile) (bindings : Base44Bindings) (backendImport : String) :
    SFile × FileStats :=
  let sf := removeBase44Imports sf
  let sf := ensureBackendImport sf backendImport
  let (sf, authRewritten) := rewriteAuthCalls sf bindings
  let (sf, crudCounts) := rewriteCollectionsCrud sf bindings
  let (sf, storageRewritten, storageUnknown) := rewriteStorageCalls sf bindings
  let anyRewritten := authRewritten + crudCounts.rewritten + storageRewritten
  let anyUnknown := crudCounts.unknown + crudCounts.unknownEntities + storageUnknown
  let sf :=
    if anyUnknown > 0 || anyRewritten = 0 then
      if sf.stmts.isEmpty then sf else ⟨Stmt.commentStmt manualReviewComment :: sf.stmts⟩
    else sf
  (sf, ⟨anyRewritten, anyUnknown, crudCounts, storageUnknown⟩)

def occurrenceTodos (r : String) (crud : CrudCounts) (storageUnknown : Nat) :
    List ConversionTodo :=
  (if crud.unknownEntities > 0 then
    [⟨r, "Found collections(...) usage where the entity name is not a string literal (" ++
      toString crud.unknownEntities ++ " occurrence(s)). Manual conversion required."⟩]
   else []) ++
  (if crud.unknown > 0 then
    [⟨r, "Found collections CRUD calls that do not match supported signatures (" ++
      toString crud.unknown ++ " occurrence(s)). Manual conversion required."⟩]
   else []) ++
  (if storageUnknown > 0 then
    [⟨r, "Found storage.* calls that are not upload/download (" ++
      toString storageUnknown ++ " occurrence(s)). Manual conversion required."⟩]
   else [])

def backendEntryText : BackendMode → String
  | .localMode =>
    "import type \x7b Backend \x7d from '@base44-to-supabase/adapter';\nimport \x7b createLocalSupabaseBackendFromEnv \x7d from '@base44-to-supabase/adapter-local';\n\n// Generated by base44-to-supabase.\n// Customize this file for your app (e.g. multiple clients, admin client, server-only code).\n\nexport const backend: Backend = createLocalSupabaseBackendFromEnv();\n"
  | .supabase =>
    "import type \x7b Backend \x7d from '@base44-to-supabase/adapter';\nimport \x7b createSupabaseBackendFromEnv \x7d from '@base44-to-supabase/adapter-supabase';\n\n// Generated by base44-to-supabase.\n// Customize this file for your app (e.g. multiple clients, admin client, server-only code).\n\nexport const backend: Backend = createSupabaseBackendFromEnv();\n"

/-- The parse of the generated backend-entry file. -/
def backendEntrySFile (mode : BackendMode) : SFile :=
  let factoryName :=
    match mode with
    | .localMode => "createLocalSupabaseBackendFromEnv"
    | .supabase => "createSupabaseBackendFromEnv"
  let adapterPkg :=
    match mode with
    | .localMode => "@base44-to-supabase/adapter-local"
    | .supabase => "@base44-to-supabase/adapter-supabase"
  ⟨[.importStmt ⟨"@base44-to-supabase/adapter", none, none, [⟨"Backend", none⟩], true⟩,
    .importStmt ⟨adapterPkg, none, none, [⟨factoryName, none⟩], false⟩,
    .declStmt (.mixE
      [.rawE "\n// Generated by base44-to-supabase.\n// Customize this file for your app (e.g. multiple clients, admin client, server-only code).\n\nexport const backend: Backend = ",
       .callEx (.identE factoryName) [],
       .rawE ";\n"])]⟩

def envExampleText : String :=
  "# Supabase\n# Cloud: set SUPABASE_URL and SUPABASE_ANON_KEY\n# Local: SUPABASE_URL defaults to http://127.0.0.1:54321 when using adapter-local\nSUPABASE_URL=\nSUPABASE_ANON_KEY=\n\n# Optional local overrides\nSUPABASE_LOCAL_URL=http://127.0.0.1:54321\nSUPABASE_LOCAL_ANON_KEY=\n"

structure ConvertOutcome where
  modifiedFiles : List String
  todos : List ConversionTodo
  remainingBase44ModuleReferences : List ModuleRef
  backendEntryPath : String
  envExamplePath : String
  rewrittenByFile : List (String × Nat)
deriving Repr, DecidableEq

/-- convert.ts `convertProject`: the tree-level pass over every source file,
the text-level post-check, and the unconditional regeneration of the
backend entry and env example.  `rewrittenByFile` is an auxiliary
observable recording each processed file's rewrite count. -/
def convertProject (fs0 : CFS) (options : ConvertOpts) : CFS × ConvertOutcome :=
  let rootPath := options.rootPath
  let backendMode := options.backendMode.getD .supabase
  let backendEntryRel := options.entryPath.getD "src/backend/index.ts"
  let envExampleRel := options.envExamplePath.getD ".env.example"
  let backendEntryAbs := pathJoin rootPath backendEntryRel
  let envExampleAbs := pathJoin rootPath envExampleRel
  let sourceFiles := findProjectSourceFilesC fs0 rootPath
  -- Tree-level pass (trees mutated in memory, then saved in one batch;
  -- modelled as per-file store updates, which the later text pass reads).
  let pass := sourceFiles.foldl
    (fun (acc : CFS × List String × List ConversionTodo × List (String × Nat)) abs =>
      let (fs, modifiedFiles, todos, stats) := acc
      match lookupSF fs abs with
      | none => acc
      | some sf =>
        let r := relPathOf rootPath abs
        let base44Imports := findBase44Imports sf
        if base44Imports.isEmpty then acc
        else
          let bindings := extractBindings base44Imports
          let backendImport := computeBackendImport abs rootPath backendEntryAbs
          let (sf', st) := convertFileBody sf bindings backendImport
          (writeSF fs abs sf',
           modifiedFiles ++ [r],
           todos ++ occurrenceTodos r st.crud st.storageUnknown,
           stats ++ [(r, st.rewritten)]))
    (fs0, [], [], [])
  let fs1 := pass.1
  let modifiedFiles := pass.2.1
  let todosAfterPass := pass.2.2.1
  let rewrittenByFile := pass.2.2.2
  -- Text-level post-check over the saved files.
  let post := sourceFiles.foldl
    (fun (acc : List ModuleRef × List ConversionTodo) abs =>
      match lookupSF fs1 abs with
      | none => acc
      | some sf =>
        let r := relPathOf rootPath abs
        let specs := (findImportedModuleSpecifiers (renderSFile sf)).filter
          isLikelyBase44ImportSource
        if specs.isEmpty then acc
        else
          (acc.1 ++ [⟨r, specs⟩],
           acc.2 ++ [⟨r, "Remaining Base44 module reference(s) detected: " ++
             String.intercalate ", " (specs.map jsonStr) ++ ". Manual conversion required."⟩]))
    ([], todosAfterPass)
  -- Regenerate the backend entry and env example unconditionally.
  let fs2 := writeSF (writeSF fs1 backendEntryAbs (backendEntrySFile backendMode))
    envExampleAbs (rawSFile envExampleText)
  (fs2,
   { modifiedFiles := sortStrings modifiedFiles
     todos := post.2
     remainingBase44ModuleReferences := stableSort (fun a b => strLe a.file b.file) post.1
     backendEntryPath := relPathOf rootPath backendEntryAbs
     envExamplePath := relPathOf rootPath envExampleAbs
     rewrittenByFile := rewrittenByFile })

/-! ## sdkHeuristics.ts `classifyUsageFromText` and analyze.ts -/

/-- JS `\w`. -/
def isWordChar (c : Char) : Bool :=
  c.isAlphanum || c = '_'

/-- Does `pat` occur in `cs` with the requested word boundaries
(`left`: `\b` before, `right`: `\b` after)? -/
def occursBounded (prev : Option Char) (cs pat : List Char) (left right : Bool) : Bool :=
  (startsWithL cs pat &&
    (!left || (match prev with
      | none => true
      | some c => !isWordChar c)) &&
    (!right || (match cs.drop pat.length with
      | [] => true
      | c :: _ => !isWordChar c))) ||
  (match cs with
   | [] => false
   | c :: rest => occursBounded (some c) rest pat left right)

def strOccursBounded (t pat : String) (left right : Bool) : Bool :=
  occursBounded none t.data pat.data left right

/-- sdkHeuristics.ts `classifyUsageFromText` (the categories in `Set` insertion
order). -/
def classifyUsageFromText (text : String) : List String :=
  let t := jsToLower text
  let hit := fun (pats : List (String × Bool × Bool)) =>
    pats.any (fun p => strOccursBounded t p.1 p.2.1 p.2.2)
  let categories :=
    (if hit [("auth", true, true), ("signin", false, false), ("signout", false, false),
        ("getuser", false, false), ("session", false, false)] then ["auth"] else []) ++
    (if hit [("collection", false, false), ("collections", false, false),
        ("database", false, false), ("db", false, true), ("create(", false, false),
        ("update(", false, false), ("delete(", false, false), ("insert(", false, false),
        ("select(", false, false)] then ["data"] else []) ++
    (if hit [("storage", false, false), ("bucket", false, false), ("upload(", false, false),
        ("download(", false, false), ("file", false, false)] then ["storage"] else []) ++
    (if hit [("realtime", false, false), ("subscribe", false, false),
        ("channel", false, false), ("presence", false, false)] then ["realtime"] else []) ++
    (if hit [("function", false, false), ("functions", false, false), ("rpc", false, false),
        ("invoke", false, false)] then ["server-functions"] else [])
  if categories.isEmpty then ["unknown"] else categories

/-- `[A-Z0-9_]`, the environment-variable name character class. -/
def isEnvNameChar (c : Char) : Bool :=
  ('A' ≤ c && c ≤ 'Z') || c.isDigit || c = '_'

/-- Scan for `\bMARKER([A-Z0-9_]+)\b` matches (the property-access form of the
env idioms), collecting the captured names left to right; `fuel` bounds the
steps (each step consumes at least one character). -/
def scanEnvDotAux (marker : List Char) : Nat → Option Char → List Char → List String
  | 0, _, _ => []
  | _ + 1, _, [] => []
  | fuel + 1, prev, c :: rest =>
    let cs := c :: rest
    let attempt :=
      if startsWithL cs marker &&
          (match prev with
            | none => true
            | some pc => !isWordChar pc) then
        let afterMarker := cs.drop marker.length
        let nameRun := afterMarker.takeWhile isEnvNameChar
        if nameRun.isEmpty then none
        else
          match afterMarker.drop nameRun.length with
          | [] => some nameRun
          | nc :: _ => if isWordChar nc then none else some nameRun
      else none
    match attempt with
    | some nameRun =>
      let consumed := marker.length + nameRun.length
      (⟨nameRun⟩ : String) ::
        scanEnvDotAux marker fuel (cs.get? (consumed - 1)) (rest.drop (consumed - 1))
    | none => scanEnvDotAux marker fuel (some c) rest

def scanEnvDot (cs marker : List Char) : List String :=
  scanEnvDotAux marker cs.length none cs

/-- Scan for `\bMARKER[('|")([A-Z0-9_]+)('|")\]` matches (the bracket-access
form; the marker includes the opening bracket), with a fuel bound. -/
def scanEnvBracketAux (marker : List Char) : Nat → Option Char → List Char → List String
  | 0, _, _ => []
  | _ + 1, _, [] => []
  | fuel + 1, prev, c :: rest =>
    let cs := c :: rest
    let attempt :=
      if startsWithL cs marker &&
          (match prev with
            | none => true
            | some pc => !isWordChar pc) then
        match cs.drop marker.length with
        | [] => none
        | q :: afterQ =>
          if !isQuoteCh q then none
          else
            let nameRun := afterQ.takeWhile isEnvNameChar
            if nameRun.isEmpty then none
            else
              match afterQ.drop nameRun.length with
              | q2 :: ']' :: _ =>
                if isQuoteCh q2 then some (nameRun, marker.length + nameRun.length + 3)
                else none
              | _ => none
      else none
    match attempt with
    | some (nameRun, consumed) =>
      (⟨nameRun⟩ : String) ::
        scanEnvBracketAux marker fuel (cs.get? (consumed - 1)) (rest.drop (consumed - 1))
    | none => scanEnvBracketAux marker fuel (some c) rest

def scanEnvBracket (cs marker : List Char) : List String :=
  scanEnvBracketAux marker cs.length none cs

/-- analyze.ts `inferEnvVarsFromText`: the four env-access idioms, merged as a
set and sorted. -/
def inferEnvVarsFromText (text : String) : List String :=
  sortStrings (dedupFirst
    (scanEnvDot text.data "process.env.".data ++
      scanEnvBracket text.data "process.env[".data ++
      scanEnvDot text.data "import.meta.env.".data ++
      scanEnvBracket text.data "import.meta.env[".data))

/-- analyze.ts `mergeUnique` at string element type (JS `Set` semantics on
primitive values: first occurrence wins, insertion order kept). -/
def mergeUniqueStr (a b : List String) : List String :=
  dedupFirst (a ++ b)

/-- `getLiteralText()` of a string literal whose `getText()` is `raw`. -/
def litValue (raw : String) : String :=
  ⟨(raw.data.drop 1).dropLast⟩

/-- First match of `/collection\((['"])(?<name>[^'"]+)\1\)/` (the chained
`collection('x')` receiver pattern; the closing quote must match the
opening one via the backreference). -/
def chainEntityMatch : List Char → Option String
  | [] => none
  | c :: rest =>
    let attempt :=
      if startsWithL (c :: rest) "collection(".data then
        match (c :: rest).drop "collection(".length with
        | [] => none
        | q :: afterQ =>
          if !isQuoteCh q then none
          else
            let body := afterQ.takeWhile (fun ch => !isQuoteCh ch)
            if body.isEmpty then none
            else
              match afterQ.drop body.length with
              | q2 :: ')' :: _ => if q2 = q then some (⟨body⟩ : String) else none
              | _ => none
      else none
    match attempt with
    | some name => some name
    | none => chainEntityMatch rest

/-- analyze.ts `inferEntityFromCall` on a call with callee `fn` and
arguments `args`: the inferred entity name (if any) and the field names of
the object-literal payload. -/
def inferEntityFromCall (fn : Expr) (args : List Expr) : Option String × List String :=
  match args.head? with
  | some (.strLitE raw) =>
    let fields :=
      match args.get? 1 with
      | some (.objLitE props) =>
        props.filterMap (fun p =>
          match p with
          | .assignProp n _ => some n
          | .otherProp _ => none)
      | _ => []
    (some (litValue raw), fields)
  | _ =>
    match fn with
    | .propE obj _ =>
      let chainText := exprText obj
      let entity := chainEntityMatch chainText.data
      let fields :=
        match args.head? with
        | some (.objLitE props) =>
          props.filterMap (fun p =>
            match p with
            | .assignProp n _ => some n
            | .otherProp _ => none)
        | _ => []
      (entity, fields)
    | _ => (none, [])

structure Finding where
  file : String
  importSource : String
  importedNames : List String
  categories : List String
deriving Repr, DecidableEq

/-- An inferred entity.  The evidence entries in the source are fresh
`{ file }` objects merged through `mergeUnique`, whose `Set` compares
objects by reference and therefore never de-duplicates them; the merge is
accordingly a plain append of the file name. -/
structure InferredEntity where
  name : String
  fields : List String
  evidence : List String
deriving Repr, DecidableEq

/-- An inferred server function; evidence entries are (file, snippet) pairs,
appended for the same object-identity reason as entity evidence. -/
structure InferredServerFunction where
  name : String
  evidence : List (String × String)
deriving Repr, DecidableEq

structure AnalyzeReport where
  importSources : List String
  filesWithImports : List String
  findings : List Finding
  categoriesDetected : List String
  entities : List InferredEntity
  serverFunctions : List InferredServerFunction
  envVars : List String
deriving Repr, DecidableEq

/-- analyze.ts `addEntity` over an insertion-ordered map modelled as an
association list. -/
def addEntity (entities : List (String × InferredEntity)) (entityName : String)
    (newFields : List String) (file : String) : List (String × InferredEntity) :=
  match entities with
  | [] =>
    [(entityName, ⟨entityName, sortStrings (mergeUniqueStr [] newFields), [file]⟩)]
  | (k, e) :: rest =>
    if k = entityName then
      (k, ⟨entityName, sortStrings (mergeUniqueStr e.fields newFields),
        e.evidence ++ [file]⟩) :: rest
    else (k, e) :: addEntity rest entityName newFields file

/-- analyze.ts `addServerFunction`. -/
def addServerFunction (functions : List (String × InferredServerFunction))
    (name file snippet : String) : List (String × InferredServerFunction) :=
  match functions with
  | [] => [(name, ⟨name, [(file, snippet)]⟩)]
  | (k, f) :: rest =>
    if k = name then (k, ⟨name, f.evidence ++ [(file, snippet)]⟩) :: rest
    else (k, f) :: addServerFunction rest name file snippet

/-- The call expressions of a file in document order, as (callee, arguments). -/
def fileCallNodes (sf : SFile) : List (Expr × List Expr) :=
  (fileCallsPre sf).filterMap (fun c => resolveCall sf c.1)

/-- The mutation-verb prefilter `/(create|update|insert|set)\b/i` on a callee
text. -/
def mutationVerbTest (calleeText : String) : Bool :=
  let t := jsToLower calleeText
  strOccursBounded t "create" false true || strOccursBounded t "update" false true ||
    strOccursBounded t "insert" false true || strOccursBounded t "set" false true

/-- The state threaded through analyze.ts's file loop. -/
structure AnalyzeState where
  importSources : List String
  filesWithImports : List String
  findings : List Finding
  categoriesDetected : List String
  entities : List (String × InferredEntity)
  serverFunctions : List (String × InferredServerFunction)
  envVars : List String
deriving Repr, DecidableEq

/-- The body of the entity-inference fold inside analyze.ts's per-file loop. -/
def entityFoldStep (r : String) (entities : List (String × InferredEntity))
    (c : Expr × List Expr) : List (String × InferredEntity) :=
  if !mutationVerbTest (exprText c.1) then entities
  else
    let inferred := inferEntityFromCall c.1 c.2
    match inferred.1 with
    | none => entities
    | some entity =>
      if inferred.2.isEmpty then entities
      else addEntity entities entity inferred.2 r

/-- The body of the server-function-inference fold inside analyze.ts's
per-file loop. -/
def serverFnFoldStep (r : String) (fns : List (String × InferredServerFunction))
    (c : Expr × List Expr) : List (String × InferredServerFunction) :=
  match c.1 with
  | .propE _ method =>
    if method ≠ "invoke" && method ≠ "rpc" then fns
    else
      match c.2.head? with
      | some (.strLitE raw) =>
        let name := litValue raw
        if name = "" then fns
        else addServerFunction fns name r (String.mk ((exprText (.callEx c.1 c.2)).data.take 200))
      | _ => fns
  | _ => fns

/-- The body of analyze.ts's per-file loop. -/
def analyzeFileStep (rootPath : String) (importSources : List String)
    (st : AnalyzeState) (abs : String) (sf : SFile) : AnalyzeState :=
  let r := relPathOf rootPath abs
  let fullText := renderSFile sf
  let st := { st with envVars := st.envVars ++ inferEnvVarsFromText fullText }
  let firstLegacy := (sf.stmts.filterMap importOf).find? (fun d =>
    isLikelyBase44ImportSource d.specifier || importSources.contains d.specifier)
  match firstLegacy with
  | none => st
  | some imp =>
    let importedNames := imp.named.map (fun n => n.name) ++
      (match imp.defaultName with
        | some d => [d]
        | none => []) ++
      (match imp.namespaceName with
        | some ns => [ns]
        | none => [])
    let categories := classifyUsageFromText fullText
    let st :=
      { st with
        importSources := mergeUniqueStr st.importSources [imp.specifier]
        filesWithImports := mergeUniqueStr st.filesWithImports [r]
        categoriesDetected :=
          stableSort strLe (mergeUniqueStr st.categoriesDetected categories)
        findings := st.findings ++ [(⟨r, imp.specifier, importedNames, categories⟩ : Finding)] }
    let calls := fileCallNodes sf
    let entities := calls.foldl (entityFoldStep r) st.entities
    let serverFunctions := calls.foldl (serverFnFoldStep r) st.serverFunctions
    { st with entities := entities, serverFunctions := serverFunctions }

/-- analyze.ts `analyzeProject`. -/
def analyzeProject (fs : CFS) (rootPath : String)
    (base44ImportSources : Option (List String)) : AnalyzeReport :=
  let importSources := base44ImportSources.getD DEFAULT_BASE44_IMPORT_SOURCES
  let sourceFiles := findProjectSourceFilesC fs rootPath
  let st := sourceFiles.foldl (fun st abs =>
    match lookupSF fs abs with
    | none => st
    | some sf => analyzeFileStep rootPath importSources st abs sf)
    ⟨[], [], [], [], [], [], []⟩
  { importSources := st.importSources
    filesWithImports := st.filesWithImports
    findings := st.findings
    categoriesDetected := st.categoriesDetected
    entities := stableSort (fun a b => strLe a.name b.name) (st.entities.map (fun e => e.2))
    serverFunctions :=
      stableSort (fun a b => strLe a.name b.name) (st.serverFunctions.map (fun f => f.2))
    envVars := sortStrings (dedupFirst st.envVars) }

/-! ## Spec-side helper definitions for theorem statements -/

/-- Is the node a string literal (`isKind(SyntaxKind.StringLiteral)`)? -/
def isStringLit : Expr → Bool
  | .strLitE _ => true
  | _ => false

/-- A concrete file whose outermost call shares its start offset with the
nested call in callee position: `f(1).g(2)`. -/
def nestedCallFile : SFile :=
  ⟨[.declStmt (.callEx (.propE (.callEx (.identE "f") [.rawE "1"]) "g") [.rawE "2"])]⟩

/-- The verify matcher: the classifier or the explicit allow-list (verify
runs with the default list, so the two tests coincide). -/
def verifyMatcher (s : String) : Bool :=
  isLikelyBase44ImportSource s || DEFAULT_BASE44_IMPORT_SOURCES.contains s

/-- The claim's three-specifier-form scenario: a non-legacy static import
(double quotes), a `require` of an allow-listed legacy specifier repeated
twice (single quotes), and a dynamic `import` of the exact legacy package
name, next to a file with no imports at all. -/
def threeFormFS : PFS :=
  ⟨[("/p/a.ts",
     "import x from \"react\";\nconst y = require('@base44/sdk');\nconst z = require('@base44/sdk');\nasync function w() \x7b return await import('base44'); \x7d\n"),
    ("/p/b.ts", "export const ok = 1;\n")], none⟩

/-- A file that already imports from the backend specifier, without binding
`backend`. -/
def existingSpecImportFile : SFile :=
  ⟨[.importStmt ⟨"./src/backend/index.js", none, none, [⟨"foo", none⟩], false⟩,
    .declStmt (.rawE "foo();")]⟩

/-- A cleanup project whose candidate helper file imports both the legacy
SDK and a non-legacy module, with no importers. -/
def mixedImportCleanupFS : PFS :=
  ⟨[("/p/src/base44Client.ts",
     "import \x7b auth \x7d from 'base44';\nimport \x7b z \x7d from 'zod';\nexport const x = 1;\n"),
    ("/p/src/app.ts", "export const ok = 1;\n")], none⟩

/-- The skip reason of the per-file cleanup rule. -/
def stillImportedReason (root : String) (importers : List String) : String :=
  "Still imported by: " ++ String.intercalate ", " ((importers.take 3).map (relPathOf root)) ++
    (if importers.length > 3 then ", ..." else "")

/-- The dependency names of all four manifest sections. -/
def pkgSectionNames (pkg : Pkg) : List String :=
  (pkg.dependencies ++ pkg.devDependencies ++ pkg.peerDependencies ++
    pkg.optionalDependencies).map (fun d => d.1)

/-- A project with a clean verify and a manifest holding legacy and
non-legacy dependencies. -/
def pruneFS : PFS :=
  ⟨[("/p/src/app.ts", "export const ok = true;\n")],
    some ⟨[("base44", "^1.0.0"), ("react", "^18.0.0")], [("@base44/sdk", "^1.0.0")], [], []⟩⟩

def pruneOpts : CleanupOpts :=
  ⟨"/p", some .delete, some true, none, none, none⟩

/-- A project whose legacy-importing helper module is still imported (by
relative path) by another source file. -/
def aggrFS : PFS :=
  ⟨[("/p/src/app.ts",
     "import \x7b x \x7d from './legacy';\nexport const y = x;\n"),
    ("/p/src/legacy.ts",
     "import \x7b auth \x7d from 'base44';\nexport const x = auth;\n")], none⟩

/-- Aggressive cleanup in delete mode. -/
def aggrOptsDelete : CleanupOpts :=
  ⟨"/p", some .delete, none, none, some true, none⟩

/-- Aggressive cleanup in the default (dry-run) mode. -/
def aggrOptsDry : CleanupOpts :=
  ⟨"/p", none, none, none, some true, none⟩

/-- Non-aggressive cleanup in delete mode. -/
def plainDeleteOpts : CleanupOpts :=
  ⟨"/p", some .delete, none, none, none, none⟩

/-- A project with no source files at all. -/
def emptyCFS : CFS := ⟨[]⟩

/-- Convert with every option defaulted. -/
def convOpts : ConvertOpts := ⟨"/p", none, none, none⟩

/-- Two files whose legacy import specifiers arrive in non-lexicographic
file order: `a.ts` imports `zzbase44`, `b.ts` imports `base44`. -/
def unsortedAnalyzeFS : CFS :=
  ⟨[("/p/a.ts",
     ⟨[.importStmt ⟨"zzbase44", none, none, [⟨"x", none⟩], false⟩,
       .declStmt (.rawE "export const a = x;")]⟩),
    ("/p/b.ts",
     ⟨[.importStmt ⟨"base44", none, none, [⟨"y", none⟩], false⟩,
       .declStmt (.rawE "export const b = y;")]⟩)]⟩

/-- The invariant the analyze loop maintains on its report lists: the
accumulator lists are duplicate-free, the category list is kept sorted, and
the entity / server-function maps have unique keys that agree with the
stored names. -/
def analyzeStateInv (st : AnalyzeState) : Prop :=
  st.importSources.Nodup ∧
  st.filesWithImports.Nodup ∧
  List.Pairwise (fun a b => strLe a b = true) st.categoriesDetected ∧
  st.categoriesDetected.Nodup ∧
  (st.entities.map (fun e => e.1)).Nodup ∧
  (∀ e ∈ st.entities, e.2.name = e.1) ∧
  (st.serverFunctions.map (fun f => f.1)).Nodup ∧
  (∀ f ∈ st.serverFunctions, f.2.name = f.1)

/-! ## Theorems -/

theorem orderedInsert_perm (le : α → α → Bool) (x : α) (l : List α) :
    (orderedInsert le x l).Perm (x :: l) := by
  induction l with
  | nil => exact List.Perm.refl _
  | cons y ys ih =>
    rw [orderedInsert]
    by_cases h : le y x = true
    · simpa [h] using ((ih.cons y).trans (List.Perm.swap x y ys))
    · simp [h]

theorem stableSort_perm (le : α → α → Bool) (l : List α) :
    (stableSort le l).Perm l := by
  suffices h : ∀ (l acc : List α),
      (l.foldl (fun acc x => orderedInsert le x acc) acc).Perm (acc ++ l) by
    simpa using h l []
  intro l
  induction l with
  | nil => intro acc; simp
  | cons x xs ih =>
    intro acc
    refine (ih (orderedInsert le x acc)).trans ?_
    refine (((orderedInsert_perm le x acc).append_right xs).trans ?_)
    exact List.perm_middle.symm

theorem orderedInsert_pairwise (le : α → α → Bool)
    (htrans : ∀ a b c, le a b = true → le b c = true → le a c = true)
    (htotal : ∀ a b, le a b = true ∨ le b a = true)
    (x : α) (l : List α) (h : l.Pairwise (fun a b => le a b = true)) :
    (orderedInsert le x l).Pairwise (fun a b => le a b = true) := by
  induction l with
  | nil => simp [orderedInsert]
  | cons y ys ih =>
    rw [orderedInsert]
    rcases List.pairwise_cons.mp h with ⟨hy, hys⟩
    by_cases hle : le y x = true
    · simp only [hle, if_true]
      refine List.pairwise_cons.mpr ⟨?_, ih hys⟩
      intro z hz
      have hz' : z ∈ x :: ys := (orderedInsert_perm le x ys).mem_iff.mp hz
      rcases List.mem_cons.mp hz' with h1 | h2
      · exact h1 ▸ hle
      · exact hy z h2
    · simp only [hle, if_false]
      have hxy : le x y = true := by
        rcases htotal x y with h1 | h1
        · exact h1
        · exact absurd h1 hle
      refine List.pairwise_cons.mpr ⟨?_, h⟩
      intro z hz
      rcases List.mem_cons.mp hz with h1 | h2
      · exact h1 ▸ hxy
      · exact htrans x y z hxy (hy z h2)

theorem stableSort_pairwise (le : α → α → Bool)
    (htrans : ∀ a b c, le a b = true → le b c = true → le a c = true)
    (htotal : ∀ a b, le a b = true ∨ le b a = true)
    (l : List α) :
    (stableSort le l).Pairwise (fun a b => le a b = true) := by
  suffices h : ∀ (l acc : List α), acc.Pairwise (fun a b => le a b = true) →
      (l.foldl (fun acc x => orderedInsert le x acc) acc).Pairwise
        (fun a b => le a b = true) by
    exact h l [] (by simp)
  intro l
  induction l with
  | nil => intro acc h; simpa using h
  | cons x xs ih =>
    intro acc hacc
    exact ih _ (orderedInsert_pairwise le htrans htotal x acc hacc)

theorem stableSort_mem (le : α → α → Bool) (l : List α) (a : α) :
    a ∈ stableSort le l ↔ a ∈ l :=
  (stableSort_perm le l).mem_iff

theorem listLe_total : ∀ a b : List Char, listLe a b = true ∨ listLe b a = true := by
  intro a
  induction a with
  | nil => intro b; left; rfl
  | cons x xs ih =>
    intro b
    cases b with
    | nil => right; rfl
    | cons y ys =>
      by_cases h1 : x.toNat < y.toNat
      · left; simp [listLe, h1]
      · by_cases h2 : y.toNat < x.toNat
        · right; simp [listLe, h2]
        · rcases ih ys with h | h
          · left; simpa [listLe, h1, h2] using h
          · right; simpa [listLe, h1, h2, fun hh => h1 hh] using h

theorem listLe_trans : ∀ a b c : List Char,
    listLe a b = true → listLe b c = true → listLe a c = true := by
  intro a
  induction a with
  | nil => intro b c _ _; rfl
  | cons x xs ih =>
    intro b c hab hbc
    cases b with
    | nil => exact absurd hab (by simp [listLe])
    | cons y ys =>
      cases c with
      | nil => exact absurd hbc (by simp [listLe])
      | cons z zs =>
        simp only [listLe] at hab hbc ⊢
        by_cases hxy : x.toNat < y.toNat
        · by_cases hyz : y.toNat < z.toNat
          · simp [show x.toNat < z.toNat by omega]
          · by_cases hzy : z.toNat < y.toNat
            · simp [hyz, hzy] at hbc
            · simp [show x.toNat < z.toNat by omega]
        · by_cases hyx : y.toNat < x.toNat
          · simp [hxy, hyx] at hab
          · by_cases hyz : y.toNat < z.toNat
            · simp [show x.toNat < z.toNat by omega]
            · by_cases hzy : z.toNat < y.toNat
              · simp [hyz, hzy] at hbc
              · have hxz : ¬ x.toNat < z.toNat := by omega
                have hzx : ¬ z.toNat < x.toNat := by omega
                simp only [hxy, hyx, if_false, if_neg hxy, if_neg hyx] at hab
                simp only [if_neg hyz, if_neg hzy] at hbc
                simp only [if_neg hxz, if_neg hzx]
                exact ih ys zs hab hbc

theorem strLe_total (a b : String) : strLe a b = true ∨ strLe b a = true :=
  listLe_total a.data b.data

theorem strLe_trans (a b c : String) :
    strLe a b = true → strLe b c = true → strLe a c = true :=
  listLe_trans a.data b.data c.data

/-- Claim C3: the collections-CRUD rewriter maps
`<collectionsBinding>('entity').<method>(args)` per method and arity —
create(data), update(id, data) with exactly two arguments, delete/remove(id),
get/read with and without an argument, list/all with zero or one argument,
find(filter) — to the corresponding `backend.data.*` call; any other
method or an argument-count mismatch of a recognized method yields the
unknown counter, and a missing or non-literal entity name yields the
unknown-entity counter, leaving the call unrewritten in both cases. -/
theorem crudDecide_mapping (b : Base44Bindings) (cn : String)
    (hcn : b.collections.contains cn = true) (ent : String) :
    (∀ d, crudDecide b (.propE (.callEx (.identE cn) [.strLitE ent]) "create") [d] =
      .rewriteTo ("backend.data.create(" ++ ent ++ ", " ++ exprText d ++ ")")) ∧
    crudDecide b (.propE (.callEx (.identE cn) [.strLitE ent]) "create") [] = .shapeUnknown ∧
    (∀ i d, crudDecide b (.propE (.callEx (.identE cn) [.strLitE ent]) "update") [i, d] =
      .rewriteTo ("backend.data.update(" ++ ent ++ ", " ++ exprText i ++ ", " ++
        exprText d ++ ")")) ∧
    (∀ args, args.length ≠ 2 →
      crudDecide b (.propE (.callEx (.identE cn) [.strLitE ent]) "update") args =
        .shapeUnknown) ∧
    (∀ i, crudDecide b (.propE (.callEx (.identE cn) [.strLitE ent]) "delete") [i] =
      .rewriteTo ("backend.data.delete(" ++ ent ++ ", " ++ exprText i ++ ")")) ∧
    (∀ i, crudDecide b (.propE (.callEx (.identE cn) [.strLitE ent]) "remove") [i] =
      .rewriteTo ("backend.data.delete(" ++ ent ++ ", " ++ exprText i ++ ")")) ∧
    crudDecide b (.propE (.callEx (.identE cn) [.strLitE ent]) "delete") [] = .shapeUnknown ∧
    crudDecide b (.propE (.callEx (.identE cn) [.strLitE ent]) "remove") [] = .shapeUnknown ∧
    (∀ i, crudDecide b (.propE (.callEx (.identE cn) [.strLitE ent]) "get") [i] =
      .rewriteTo ("backend.data.read(" ++ ent ++ ", \x7b id: " ++ exprText i ++ " \x7d)")) ∧
    (∀ i, crudDecide b (.propE (.callEx (.identE cn) [.strLitE ent]) "read") [i] =
      .rewriteTo ("backend.data.read(" ++ ent ++ ", \x7b id: " ++ exprText i ++ " \x7d)")) ∧
    crudDecide b (.propE (.callEx (.identE cn) [.strLitE ent]) "get") [] =
      .rewriteTo ("backend.data.read(" ++ ent ++ ")") ∧
    crudDecide b (.propE (.callEx (.identE cn) [.strLitE ent]) "read") [] =
      .rewriteTo ("backend.data.read(" ++ ent ++ ")") ∧
    crudDecide b (.propE (.callEx (.identE cn) [.strLitE ent]) "list") [] =
      .rewriteTo ("backend.data.read(" ++ ent ++ ")") ∧
    crudDecide b (.propE (.callEx (.identE cn) [.strLitE ent]) "all") [] =
      .rewriteTo ("backend.data.read(" ++ ent ++ ")") ∧
    (∀ f, crudDecide b (.propE (.callEx (.identE cn) [.strLitE ent]) "list") [f] =
      .rewriteTo ("backend.data.read(" ++ ent ++ ", \x7b filter: " ++ exprText f ++ " \x7d)")) ∧
    (∀ f, crudDecide b (.propE (.callEx (.identE cn) [.strLitE ent]) "all") [f] =
      .rewriteTo ("backend.data.read(" ++ ent ++ ", \x7b filter: " ++ exprText f ++ " \x7d)")) ∧
    (∀ f, crudDecide b (.propE (.callEx (.identE cn) [.strLitE ent]) "find") [f] =
      .rewriteTo ("backend.data.read(" ++ ent ++ ", \x7b filter: " ++ exprText f ++ " \x7d)")) ∧
    crudDecide b (.propE (.callEx (.identE cn) [.strLitE ent]) "find") [] = .shapeUnknown ∧
    (∀ method args, method ∉ ["create", "update", "delete", "remove", "get", "read",
        "list", "all", "find"] →
      crudDecide b (.propE (.callEx (.identE cn) [.strLitE ent]) method) args =
        .shapeUnknown) ∧
    (∀ method args e, isStringLit e = false →
      crudDecide b (.propE (.callEx (.identE cn) [e]) method) args = .entityUnknown) ∧
    (∀ method args,
      crudDecide b (.propE (.callEx (.identE cn) []) method) args = .entityUnknown) := by
  have hcoll : isCollectionsCallee (.identE cn) b = true := by
    simpa [isCollectionsCallee] using hcn
  refine ⟨?_, ?_, ?_, ?_, ?_, ?_, ?_, ?_, ?_, ?_, ?_, ?_, ?_, ?_, ?_, ?_, ?_, ?_, ?_, ?_, ?_⟩
  · intro d; simp [crudDecide, hcoll]
  · simp [crudDecide, hcoll]
  · intro i d; simp [crudDecide, hcoll]
  · intro args h
    match args with
    | [] => simp [crudDecide, hcoll]
    | [a] => simp [crudDecide, hcoll]
    | a :: b' :: c :: rest => simp [crudDecide, hcoll]
    | [a, b'] => exact absurd rfl h
  · intro i; simp [crudDecide, hcoll]
  · intro i; simp [crudDecide, hcoll]
  · simp [crudDecide, hcoll]
  · simp [crudDecide, hcoll]
  · intro i; simp [crudDecide, hcoll]
  · intro i; simp [crudDecide, hcoll]
  · simp [crudDecide, hcoll]
  · simp [crudDecide, hcoll]
  · simp [crudDecide, hcoll]
  · simp [crudDecide, hcoll]
  · intro f; simp [crudDecide, hcoll]
  · intro f; simp [crudDecide, hcoll]
  · intro f; simp [crudDecide, hcoll]
  · simp [crudDecide, hcoll]
  · intro method args h
    simp only [List.mem_cons, List.not_mem_nil, or_false, not_or] at h
    obtain ⟨h1, h2, h3, h4, h5, h6, h7, h8, h9⟩ := h
    simp [crudDecide, hcoll, h1, h2, h3, h4, h5, h6, h7, h8, h9]
  · intro method args e he
    match e, he with
    | .identE n, _ => simp [crudDecide, hcoll]
    | .propE o p, _ => simp [crudDecide, hcoll]
    | .callEx f a, _ => simp [crudDecide, hcoll]
    | .objLitE ps, _ => simp [crudDecide, hcoll]
    | .mixE ps, _ => simp [crudDecide, hcoll]
    | .rawE t, _ => simp [crudDecide, hcoll]
  · intro method args; simp [crudDecide, hcoll]

/-- Witness for C3 at a concrete binding set, entity and argument. -/
theorem crudDecide_mapping_witness :
    crudDecide ⟨[], [], ["collections"], []⟩
      (.propE (.callEx (.identE "collections") [.strLitE "'todos'"]) "create") [.rawE "data"] =
      .rewriteTo "backend.data.create('todos', data)" :=
  (crudDecide_mapping ⟨[], [], ["collections"], []⟩ "collections" (by decide) "'todos'").1
    (.rawE "data")

/-- Claim C9 (counterexample): in `f(1).g(2)` the outer call and the nested
call in its callee share start offset 0, so the snapshot visits two calls
at the same position — the visit order is not strictly decreasing. -/
theorem getCallSnapshotReverse_not_strict :
    (getCallSnapshotReverse nestedCallFile).map (fun c => c.2) = [0, 0] ∧
    ¬ List.Pairwise (fun a b : Nat => a > b)
      ((getCallSnapshotReverse nestedCallFile).map (fun c => c.2)) := by
  refine ⟨by decide, ?_⟩
  intro h
  rw [(by decide : (getCallSnapshotReverse nestedCallFile).map (fun c => c.2) = [0, 0])] at h
  exact absurd (List.pairwise_cons.mp h).1 (by simp)

/-- Claim C9 (amended): every call-site rewrite pass visits the call
expressions in non-increasing source-position order (ties occur exactly for
nested calls sharing a start offset, as in the counterexample), and the
snapshot is a permutation of the file's call set, so a replacement
performed earlier in the pass never precedes a strictly later position. -/
theorem getCallSnapshotReverse_order (sf : SFile) :
    List.Pairwise (fun a b => b.2 ≤ a.2) (getCallSnapshotReverse sf) ∧
    (getCallSnapshotReverse sf).Perm (fileCallsPre sf) := by
  constructor
  · have h := stableSort_pairwise
      (fun (a b : (Nat × List Nat) × Nat) => decide (b.2 ≤ a.2))
      (fun a b c hab hbc => by
        simp only [decide_eq_true_eq] at *
        omega)
      (fun a b => by
        by_cases hab : b.2 ≤ a.2
        · exact Or.inl (by simpa using hab)
        · exact Or.inr (by simp; omega))
      (fileCallsPre sf)
    have h2 : List.Pairwise (fun (a b : (Nat × List Nat) × Nat) => b.2 ≤ a.2)
        (stableSort (fun a b => decide (b.2 ≤ a.2)) (fileCallsPre sf)) := by
      refine h.imp ?_
      intro a b hab
      simpa using hab
    exact h2
  · exact stableSort_perm _ _

theorem verifyEntryFor_eq_some {fs : PFS} {abs rootPath : String} {e : ModuleRef} :
    verifyEntryFor fs abs rootPath = some e ↔
      ∃ text, lookupFile fs abs = some text ∧
        (findImportedModuleSpecifiers text).filter verifyMatcher ≠ [] ∧
        e = ⟨relPathOf rootPath abs,
          (findImportedModuleSpecifiers text).filter verifyMatcher⟩ := by
  unfold verifyEntryFor verifyMatcher
  cases h : lookupFile fs abs with
  | none => simp
  | some text =>
    simp only []
    by_cases hne : (findImportedModuleSpecifiers text).filter
        (fun s => isLikelyBase44ImportSource s ||
          DEFAULT_BASE44_IMPORT_SOURCES.contains s) = []
    · rw [if_pos (by simpa [List.isEmpty_iff] using hne)]
      constructor
      · intro he
        exact absurd he (by simp)
      · rintro ⟨t, ht, hcontra, _⟩
        rw [Option.some_inj] at ht
        exact absurd (ht ▸ hne) hcontra
    · rw [if_neg (by simpa [List.isEmpty_iff] using hne)]
      rw [Option.some_inj]
      constructor
      · intro he
        exact ⟨text, rfl, hne, he.symm⟩
      · rintro ⟨t, ht, _, he⟩
        rw [Option.some_inj] at ht
        rw [he, ht]

/-- Claim C4: the text-level scanner feeds `verifyProject`, which returns —
sorted by file path — one entry per file whose de-duplicated extracted
specifiers include at least one classifier match, listing exactly the
matching specifiers; in the scenario of a non-legacy static import, a
`require` of an allow-listed legacy specifier (appearing twice) and a
dynamic `import` of the exact legacy package name, the result is exactly
one entry carrying the two legacy specifiers once each, in both quote
styles of the three recognized forms. -/
theorem verifyProject_reports_matching_specifiers (fs : PFS) (rootPath : String) :
    (List.Pairwise (fun a b => strLe a.file b.file = true)
      (verifyProject fs rootPath).remainingBase44ModuleReferences) ∧
    (∀ e ∈ (verifyProject fs rootPath).remainingBase44ModuleReferences,
      ∃ abs ∈ findProjectSourceFilesIn fs rootPath, ∃ text,
        lookupFile fs abs = some text ∧
        e.file = relPathOf rootPath abs ∧
        e.specifiers = (findImportedModuleSpecifiers text).filter verifyMatcher ∧
        e.specifiers ≠ []) ∧
    (∀ abs ∈ findProjectSourceFilesIn fs rootPath, ∀ text,
      lookupFile fs abs = some text →
      (∃ s ∈ findImportedModuleSpecifiers text, verifyMatcher s = true) →
      ∃ e ∈ (verifyProject fs rootPath).remainingBase44ModuleReferences,
        e.file = relPathOf rootPath abs ∧
        e.specifiers = (findImportedModuleSpecifiers text).filter verifyMatcher) ∧
    verifyProject threeFormFS "/p" =
      ⟨"/p", 2, [⟨"a.ts", ["@base44/sdk", "base44"]⟩]⟩ := by
  refine ⟨?_, ?_, ?_, ?_⟩
  · exact stableSort_pairwise (fun (a b : ModuleRef) => strLe a.file b.file)
      (fun a b c hab hbc => strLe_trans _ _ _ hab hbc)
      (fun a b => strLe_total a.file b.file)
      ((findProjectSourceFilesIn fs rootPath).filterMap
        (fun abs => verifyEntryFor fs abs rootPath))
  · intro e he
    have he' : e ∈ (findProjectSourceFilesIn fs rootPath).filterMap
        (fun abs => verifyEntryFor fs abs rootPath) := by
      exact (stableSort_mem _ _ _).mp he
    rcases List.mem_filterMap.mp he' with ⟨abs, habs, hsome⟩
    rcases verifyEntryFor_eq_some.mp hsome with ⟨text, ht, hne, hee⟩
    exact ⟨abs, habs, text, ht, by rw [hee], by rw [hee], by rw [hee]; simpa using hne⟩
  · intro abs habs text ht hmatch
    rcases hmatch with ⟨s, hs, hsm⟩
    have hne : (findImportedModuleSpecifiers text).filter verifyMatcher ≠ [] := by
      intro hnil
      have := List.filter_eq_nil.mp hnil s hs
      simp [hsm] at this
    refine ⟨⟨relPathOf rootPath abs,
      (findImportedModuleSpecifiers text).filter verifyMatcher⟩, ?_, rfl, rfl⟩
    have : verifyEntryFor fs abs rootPath = some ⟨relPathOf rootPath abs,
        (findImportedModuleSpecifiers text).filter verifyMatcher⟩ :=
      verifyEntryFor_eq_some.mpr ⟨text, ht, hne, rfl⟩
    exact (stableSort_mem _ _ _).mpr (List.mem_filterMap.mpr ⟨abs, habs, this⟩)
  · decide

/-- Witness for C4: the sortedness and scenario conjuncts at the concrete
three-form project. -/
theorem verifyProject_reports_matching_specifiers_witness :
    (List.Pairwise (fun a b => strLe a.file b.file = true)
      (verifyProject threeFormFS "/p").remainingBase44ModuleReferences) ∧
    verifyProject threeFormFS "/p" =
      ⟨"/p", 2, [⟨"a.ts", ["@base44/sdk", "base44"]⟩]⟩ :=
  ⟨(verifyProject_reports_matching_specifiers threeFormFS "/p").1,
   (verifyProject_reports_matching_specifiers threeFormFS "/p").2.2.2⟩

theorem startsWithL_append_self (p q : List Char) : startsWithL (p ++ q) p = true := by
  induction p with
  | nil => simp [startsWithL]
  | cons c cs ih => simp [startsWithL, ih]

theorem strEndsWith_append (x s : String) : strEndsWith (x ++ s) s = true := by
  unfold strEndsWith
  rw [String.data_append, List.reverse_append]
  exact startsWithL_append_self _ _

theorem startsWithL_extend (a b p : List Char) (h : startsWithL a p = true) :
    startsWithL (a ++ b) p = true := by
  induction p generalizing a with
  | nil => simp [startsWithL]
  | cons c cs ih =>
    cases a with
    | nil => exact absurd h (by simp [startsWithL])
    | cons x xs =>
      simp only [startsWithL, Bool.and_eq_true] at h ⊢
      exact ⟨h.1, ih xs h.2⟩

theorem strEndsWith_left_append (y x s : String) (h : strEndsWith x s = true) :
    strEndsWith (y ++ x) s = true := by
  unfold strEndsWith at h ⊢
  rw [String.data_append, List.reverse_append]
  exact startsWithL_extend _ _ _ h

theorem hasImport_afterLastImportIdx_pos (stmts : List Stmt)
    (h : (stmts.filterMap importOf).length > 0) : afterLastImportIdx stmts > 0 := by
  induction stmts with
  | nil => simp at h
  | cons st rest ih =>
    by_cases hr : afterLastImportIdx rest > 0
    · simp only [afterLastImportIdx, if_pos hr]
      omega
    · cases st with
      | importStmt d => simp [afterLastImportIdx, if_neg hr]
      | exprStmt e =>
        simp only [List.filterMap_cons, importOf] at h
        exact absurd (ih h) hr
      | declStmt e =>
        simp only [List.filterMap_cons, importOf] at h
        exact absurd (ih h) hr
      | commentStmt t =>
        simp only [List.filterMap_cons, importOf] at h
        exact absurd (ih h) hr

theorem directivePrefixLen_le_afterLastImportIdx (stmts : List Stmt)
    (h : (stmts.filterMap importOf).length > 0) :
    directivePrefixLen stmts ≤ afterLastImportIdx stmts := by
  induction stmts with
  | nil => simp at h
  | cons st rest ih =>
    cases st with
    | importStmt d => simp [directivePrefixLen]
    | exprStmt e =>
      cases e with
      | strLitE raw =>
        simp only [List.filterMap_cons, importOf] at h
        have hrest := ih h
        have hpos := hasImport_afterLastImportIdx_pos rest h
        simp only [directivePrefixLen, afterLastImportIdx, if_pos hpos]
        omega
      | identE n => simp [directivePrefixLen]
      | propE o p => simp [directivePrefixLen]
      | callEx f args => simp [directivePrefixLen]
      | objLitE props => simp [directivePrefixLen]
      | mixE parts => simp [directivePrefixLen]
      | rawE t => simp [directivePrefixLen]
    | declStmt e => simp [directivePrefixLen]
    | commentStmt t => simp [directivePrefixLen]

theorem dotWrapStarts (w : String) :
    strStartsWith (if strStartsWith w "." then w else "./" ++ w) "." = true := by
  by_cases h : strStartsWith w "." = true
  · rw [if_pos h]
    exact h
  · rw [if_neg h]
    show startsWithL _ _ = true
    rw [String.data_append]
    exact startsWithL_extend _ _ _ (by simp [startsWithL])

theorem dotWrapEnds (w : String) (h : strEndsWith w ".js" = true) :
    strEndsWith (if strStartsWith w "." then w else "./" ++ w) ".js" = true := by
  by_cases hd : strStartsWith w "." = true
  · rw [if_pos hd]
    exact h
  · rw [if_neg hd]
    exact strEndsWith_left_append _ _ _ h

theorem withExtEnds (posix : String) :
    strEndsWith (if strEndsWith posix ".js" then posix else posix ++ ".js") ".js" = true := by
  by_cases h : strEndsWith posix ".js" = true
  · rw [if_pos h]
    exact h
  · rw [if_neg h]
    exact strEndsWith_append _ _

/-- Claim C7 (counterexample): when an import declaration for the exact
backend specifier is already present but does not bind `backend`,
`ensureBackendImport` returns without touching the file — the `backend`
binding is not merged into the existing import list. -/
theorem ensureBackendImport_no_merge :
    ensureBackendImport existingSpecImportFile "./src/backend/index.js" =
      existingSpecImportFile ∧
    (((ensureBackendImport existingSpecImportFile "./src/backend/index.js").stmts.filterMap
        importOf).all
      (fun d => !(d.named.any (fun n => (n.aliasTo.getD n.name) = "backend")))) = true := by
  constructor
  · rfl
  · decide

/-- Claim C7 (amended): Convert ensures an import of `backend` from the
computed relative specifier, which always starts with `.` and carries the
`.js` extension; when no import declaration for that exact specifier
exists, the import is inserted at an index no smaller than the directive
prologue length (after the last import when imports exist, and directly
after the leading string-literal directives otherwise), so a directive
prologue stays first; when an import declaration for that exact specifier
is already present, the file is returned unchanged (the import is not
re-added and no binding is merged into it). -/
theorem ensureBackendImport_spec (sf : SFile) (s fromAbs root entryAbs : String) :
    ((sf.stmts.filterMap importOf).any (fun d => d.specifier = s) = true →
      ensureBackendImport sf s = sf) ∧
    ((sf.stmts.filterMap importOf).any (fun d => d.specifier = s) = false →
      ∃ i, directivePrefixLen sf.stmts ≤ i ∧
        (ensureBackendImport sf s).stmts =
          sf.stmts.take i ++ [backendNamedImport s] ++ sf.stmts.drop i) ∧
    strStartsWith (computeBackendImport fromAbs root entryAbs) "." = true ∧
    strEndsWith (computeBackendImport fromAbs root entryAbs) ".js" = true := by
  refine ⟨?_, ?_, ?_, ?_⟩
  · intro h
    unfold ensureBackendImport
    rw [if_pos h]
  · intro h
    unfold ensureBackendImport
    rw [if_neg (by simp [h])]
    by_cases hlen : (sf.stmts.filterMap importOf).length > 0
    · rw [if_pos (by simpa using hlen)]
      exact ⟨afterLastImportIdx sf.stmts,
        directivePrefixLen_le_afterLastImportIdx sf.stmts hlen, rfl⟩
    · rw [if_neg (by simpa using hlen)]
      exact ⟨directivePrefixLen sf.stmts, le_refl _, rfl⟩
  · exact dotWrapStarts _
  · exact dotWrapEnds _ (withExtEnds _)

/-- Witness for C7: the unchanged-file branch at the concrete file that
already imports the backend specifier, and the specifier shape at concrete
paths. -/
theorem ensureBackendImport_spec_witness :
    ensureBackendImport existingSpecImportFile "./src/backend/index.js" =
      existingSpecImportFile ∧
    strStartsWith (computeBackendImport "/p/app.ts" "/p" "/p/src/backend/index.ts") "." = true ∧
    strEndsWith (computeBackendImport "/p/app.ts" "/p" "/p/src/backend/index.ts") ".js" = true :=
  ⟨(ensureBackendImport_spec existingSpecImportFile "./src/backend/index.js"
      "/p/app.ts" "/p" "/p/src/backend/index.ts").1 (by decide),
   (ensureBackendImport_spec existingSpecImportFile "./src/backend/index.js"
      "/p/app.ts" "/p" "/p/src/backend/index.ts").2.2.1,
   (ensureBackendImport_spec existingSpecImportFile "./src/backend/index.js"
      "/p/app.ts" "/p" "/p/src/backend/index.ts").2.2.2⟩

theorem find?_map_any (l : List (String × String)) (p t : String)
    (h : (l.find? (fun f => f.1 = p)).map (fun f => f.2) = some t) :
    (l.any (fun f => f.1 = p)) = true := by
  induction l with
  | nil => simp at h
  | cons x xs ih =>
    by_cases hx : x.1 = p
    · simp [hx]
    · simp only [List.find?_cons, hx, decide_eq_false hx, Bool.false_eq_true, if_false] at h
      simpa [hx] using ih h

theorem lookupFile_fileExists {fs : PFS} {p : String} {t : String}
    (h : lookupFile fs p = some t) : fileExists fs p = true :=
  find?_map_any fs.files p t h

/-- Claim C6 (counterexample): the per-file cleanup rule acts on a candidate
file whose content imports the legacy SDK *and* a non-legacy module
(`zod`), deleting it in delete mode — the rule does not require the file
to hold exclusively legacy-SDK imports. -/
theorem cleanup_deletes_non_exclusive_candidate :
    (cleanupProject mixedImportCleanupFS ⟨"/p", some .delete, none, none, none, none⟩).2.deletedPaths
      = ["src/base44Client.ts"] ∧
    findImportedModuleSpecifiers
        "import \x7b auth \x7d from 'base44';\nimport \x7b z \x7d from 'zod';\nexport const x = 1;\n"
      = ["base44", "zod"] ∧
    isLikelyBase44ImportSource "zod" = false ∧
    fileExists (cleanupProject mixedImportCleanupFS
      ⟨"/p", some .delete, none, none, none, none⟩).1 "/p/src/base44Client.ts" = false := by
  refine ⟨?_, ?_, ?_, ?_⟩ <;> decide

/-- Claim C6 (amended): every per-file candidate matches the fixed glob set;
a candidate file is acted on only when its content imports at least one
legacy-SDK specifier (not necessarily exclusively); when the
ReverseImportIndex records importers, the file is skipped with a reason
listing at most three importer paths, with an ellipsis exactly when there
are more than three; otherwise it is deleted in delete mode and only
recorded in dry-run mode. -/
theorem cleanupCandidateStep_file_rule (fs0 : PFS) (importedBy : List (String × List String))
    (root : String) (mode : CMode) (st : CleanState) (abs text : String)
    (hdir : dirExists st.fs abs = false) (hfile : lookupFile st.fs abs = some text) :
    (∀ c ∈ cleanupCandidates fs0 root, matchesCleanupPattern (relSegsUnder root c) = true) ∧
    (isBase44OnlyFile text = false →
      cleanupCandidateStep importedBy root mode st abs = st) ∧
    (isBase44OnlyFile text = true → reverseIndexGet importedBy abs ≠ [] →
      cleanupCandidateStep importedBy root mode st abs =
        { st with skippedPaths := st.skippedPaths ++
            [⟨relPathOf root abs, stillImportedReason root (reverseIndexGet importedBy abs)⟩] } ∧
      ((reverseIndexGet importedBy abs).take 3).length ≤ 3) ∧
    (isBase44OnlyFile text = true → reverseIndexGet importedBy abs = [] →
      cleanupCandidateStep importedBy root mode st abs =
        { st with
            fs := if mode = .delete then rmFile st.fs abs else st.fs
            deletedPaths := st.deletedPaths ++ [relPathOf root abs] }) := by
  have hex : fileExists st.fs abs = true := lookupFile_fileExists hfile
  refine ⟨?_, ?_, ?_, ?_⟩
  · intro c hc
    unfold cleanupCandidates at hc
    have := (stableSort_mem _ _ _).mp hc
    exact (List.mem_filter.mp this).2
  · intro hnot
    unfold cleanupCandidateStep
    rw [if_neg (by simp [hdir]), if_pos hex, hfile]
    simp [hnot]
  · intro hb44 himp
    constructor
    · unfold cleanupCandidateStep
      rw [if_neg (by simp [hdir]), if_pos hex, hfile]
      simp only [hb44, Bool.not_true, if_neg (by simp : ¬ (false = true))]
      rw [if_pos (by simpa [List.length_pos] using himp)]
      rfl
    · exact le_trans (List.length_take_le _ _) (by simp)
  · intro hb44 himp
    unfold cleanupCandidateStep
    rw [if_neg (by simp [hdir]), if_pos hex, hfile]
    simp only [hb44, Bool.not_true, if_neg (by simp : ¬ (false = true))]
    rw [if_neg (by simp [himp])]

/-- Witness for C6's amended rule: the dry-run branch at a concrete
unreferenced candidate. -/
theorem cleanupCandidateStep_file_rule_witness :
    cleanupCandidateStep [] "/p" .dryRun
      ⟨mixedImportCleanupFS, [], [], []⟩ "/p/src/base44Client.ts" =
      ⟨mixedImportCleanupFS, ["src/base44Client.ts"], [], []⟩ :=
  (cleanupCandidateStep_file_rule mixedImportCleanupFS [] "/p" .dryRun
      ⟨mixedImportCleanupFS, [], [], []⟩ "/p/src/base44Client.ts"
      "import \x7b auth \x7d from 'base44';\nimport \x7b z \x7d from 'zod';\nexport const x = 1;\n"
      (by decide) (by decide)).2.2.2 (by decide) (by decide)

theorem rmFile_pkg (fs : PFS) (p : String) : (rmFile fs p).pkg = fs.pkg := rfl

theorem rmDirRec_pkg (fs : PFS) (p : String) : (rmDirRec fs p).pkg = fs.pkg := rfl

theorem renameFile_pkg (fs : PFS) (src dst : String) :
    (renameFile fs src dst).pkg = fs.pkg := by
  unfold renameFile
  cases lookupFile fs src <;> rfl

theorem cleanupCandidateStep_pkg (importedBy : List (String × List String)) (root : String)
    (mode : CMode) (st : CleanState) (abs : String) :
    (cleanupCandidateStep importedBy root mode st abs).fs.pkg = st.fs.pkg := by
  simp only [cleanupCandidateStep]
  repeat' split
  all_goals rfl

theorem aggressiveStep_pkg (root q : String) (mode : CMode) (st : CleanState) (abs : String) :
    (aggressiveStep root q mode st abs).fs.pkg = st.fs.pkg := by
  simp only [aggressiveStep]
  repeat' split
  all_goals first
  | rfl
  | simp [renameFile_pkg]

theorem foldl_fs_pkg_preserved {β : Type} (f : CleanState → β → CleanState)
    (hf : ∀ st b, (f st b).fs.pkg = st.fs.pkg) (l : List β) (st : CleanState) :
    (l.foldl f st).fs.pkg = st.fs.pkg := by
  induction l generalizing st with
  | nil => rfl
  | cons x xs ih => rw [List.foldl_cons, ih, hf]

theorem functionsDirStage_pkg (fs : PFS) (opts : CleanupOpts) :
    (functionsDirStage fs opts).fs.pkg = fs.pkg := by
  simp only [functionsDirStage]
  repeat' split
  all_goals rfl

theorem candidateStage_pkg (fs : PFS) (opts : CleanupOpts) (st : CleanState) :
    (candidateStage fs opts st).fs.pkg = st.fs.pkg :=
  foldl_fs_pkg_preserved _ (fun st b => cleanupCandidateStep_pkg _ _ _ st b) _ st

theorem aggressiveStage_pkg (opts : CleanupOpts) (st : CleanState) :
    (aggressiveStage opts st).fs.pkg = st.fs.pkg := by
  simp only [aggressiveStage]
  split
  · exact foldl_fs_pkg_preserved _ (fun st b => aggressiveStep_pkg _ _ _ st b) _ st
  · rfl

theorem cleanupCore_pkg (fs : PFS) (opts : CleanupOpts) :
    (cleanupCore fs opts).fs.pkg = fs.pkg := by
  rw [cleanupCore, aggressiveStage_pkg, candidateStage_pkg, functionsDirStage_pkg]

theorem verifyProject_files_only (files : List (String × String)) (p q : Option Pkg)
    (root : String) : verifyProject ⟨files, p⟩ root = verifyProject ⟨files, q⟩ root := rfl

theorem dedupFirstAux_mem (seen l : List String) (a : String) :
    a ∈ dedupFirstAux seen l ↔ (a ∈ l ∧ ¬ a ∈ seen) := by
  induction l generalizing seen with
  | nil => simp [dedupFirstAux]
  | cons x xs ih =>
    by_cases hx : seen.any (fun y => y = x) = true
    · rw [dedupFirstAux, if_pos hx, ih]
      have hxseen : x ∈ seen := by
        rcases List.any_eq_true.mp hx with ⟨y, hy, hyx⟩
        exact (by simpa using hyx : y = x) ▸ hy
      constructor
      · rintro ⟨h1, h2⟩
        exact ⟨List.mem_cons_of_mem _ h1, h2⟩
      · rintro ⟨h1, h2⟩
        rcases List.mem_cons.mp h1 with h3 | h3
        · exact absurd (h3 ▸ hxseen) h2
        · exact ⟨h3, h2⟩
    · rw [dedupFirstAux, if_neg hx]
      have hxseen : ¬ x ∈ seen := by
        intro hc
        exact hx (List.any_eq_true.mpr ⟨x, hc, by simp⟩)
      rw [List.mem_cons, ih]
      constructor
      · rintro (h1 | ⟨h1, h2⟩)
        · subst h1
          exact ⟨List.mem_cons_self _ _, hxseen⟩
        · exact ⟨List.mem_cons_of_mem _ h1, fun hc => h2 (List.mem_cons_of_mem _ hc)⟩
      · rintro ⟨h1, h2⟩
        rcases List.mem_cons.mp h1 with h3 | h3
        · exact Or.inl h3
        · by_cases hax : a = x
          · exact Or.inl hax
          · exact Or.inr ⟨h3, by simp [hax, h2]⟩

theorem dedupFirst_mem (l : List String) (a : String) : a ∈ dedupFirst l ↔ a ∈ l := by
  rw [dedupFirst, dedupFirstAux_mem]
  simp

theorem sortStrings_mem (l : List String) (a : String) : a ∈ sortStrings l ↔ a ∈ l :=
  stableSort_mem _ _ _

theorem removeMatchingDeps_mem (pkg : Pkg) (pred : String → Bool) (nm : String) :
    nm ∈ (removeMatchingDeps pkg pred).1 ↔
      (pred nm = true ∧ nm ∈ pkgSectionNames pkg) := by
  unfold removeMatchingDeps pkgSectionNames
  rw [sortStrings_mem, dedupFirst_mem]
  simp only [List.mem_append, List.mem_filter, List.mem_map]
  constructor
  · intro hmem
    rcases hmem with ((⟨⟨d, hd, hdn⟩, hp⟩ | ⟨⟨d, hd, hdn⟩, hp⟩) | ⟨⟨d, hd, hdn⟩, hp⟩) |
        ⟨⟨d, hd, hdn⟩, hp⟩
    · exact ⟨hp, d, Or.inl (Or.inl (Or.inl hd)), hdn⟩
    · exact ⟨hp, d, Or.inl (Or.inl (Or.inr hd)), hdn⟩
    · exact ⟨hp, d, Or.inl (Or.inr hd), hdn⟩
    · exact ⟨hp, d, Or.inr hd, hdn⟩
  · rintro ⟨hp, d, hd, hdn⟩
    rcases hd with ((hd | hd) | hd) | hd
    · exact Or.inl (Or.inl (Or.inl ⟨⟨d, hd, hdn⟩, hp⟩))
    · exact Or.inl (Or.inl (Or.inr ⟨⟨d, hd, hdn⟩, hp⟩))
    · exact Or.inl (Or.inr ⟨⟨d, hd, hdn⟩, hp⟩)
    · exact Or.inr ⟨⟨d, hd, hdn⟩, hp⟩

theorem cleanupProject_eq_blocked (fs : PFS) (opts : CleanupOpts)
    (h : opts.removeDependencies = some true)
    (hn : (verifyProject (cleanupCore fs opts).fs
      opts.rootPath).remainingBase44ModuleReferences.length > 0) :
    cleanupProject fs opts =
      ((cleanupCore fs opts).fs,
        { deletedPaths := (cleanupCore fs opts).deletedPaths
          quarantinedPaths := (cleanupCore fs opts).quarantinedPaths
          skippedPaths := (cleanupCore fs opts).skippedPaths ++
            [⟨"package.json", pruneBlockedReason
              (verifyProject (cleanupCore fs opts).fs
                opts.rootPath).remainingBase44ModuleReferences.length⟩]
          removedDependencies := [] }) := by
  have hcond : opts.removeDependencies.getD false = true := by rw [h]; rfl
  simp only [cleanupProject, hcond, if_true, if_pos hn]

theorem cleanupProject_eq_clean_none (fs : PFS) (opts : CleanupOpts)
    (h : opts.removeDependencies = some true)
    (hn : ¬ ((verifyProject (cleanupCore fs opts).fs
      opts.rootPath).remainingBase44ModuleReferences.length > 0))
    (hfs : (cleanupCore fs opts).fs.pkg = none) :
    cleanupProject fs opts =
      ((cleanupCore fs opts).fs,
        { deletedPaths := (cleanupCore fs opts).deletedPaths
          quarantinedPaths := (cleanupCore fs opts).quarantinedPaths
          skippedPaths := (cleanupCore fs opts).skippedPaths
          removedDependencies := [] }) := by
  have hcond : opts.removeDependencies.getD false = true := by rw [h]; rfl
  simp only [cleanupProject, hcond, if_true, if_neg hn, hfs]

theorem cleanupProject_eq_clean_some (fs : PFS) (opts : CleanupOpts) (pkg : Pkg)
    (h : opts.removeDependencies = some true)
    (hn : ¬ ((verifyProject (cleanupCore fs opts).fs
      opts.rootPath).remainingBase44ModuleReferences.length > 0))
    (hfs : (cleanupCore fs opts).fs.pkg = some pkg) :
    cleanupProject fs opts =
      (if (removeMatchingDeps pkg (fun name => strContains (jsToLower name) "base44")).1.length > 0
          && opts.mode.getD CMode.dryRun = CMode.delete then
        { (cleanupCore fs opts).fs with pkg := some (removeMatchingDeps pkg
          (fun name => strContains (jsToLower name) "base44")).2 }
      else (cleanupCore fs opts).fs,
        { deletedPaths := (cleanupCore fs opts).deletedPaths
          quarantinedPaths := (cleanupCore fs opts).quarantinedPaths
          skippedPaths := (cleanupCore fs opts).skippedPaths
          removedDependencies :=
            if (removeMatchingDeps pkg
                (fun name => strContains (jsToLower name) "base44")).1.length > 0
            then sortStrings (dedupFirst (removeMatchingDeps pkg
              (fun name => strContains (jsToLower name) "base44")).1)
            else [] }) := by
  have hcond : opts.removeDependencies.getD false = true := by rw [h]; rfl
  simp only [cleanupProject, hcond, if_true, if_neg hn, hfs]

/-- Claim C5: with dependency-manifest pruning requested, cleanup re-runs
Verify on the post-deletion tree; if any legacy reference remains it makes
zero manifest edits, reports no removed dependencies, and records a skip
whose reason names the number of blocking files; otherwise the removed
dependencies are exactly the manifest entries (across all four sections)
whose names case-insensitively contain `base44`, and the manifest itself
is rewritten (legacy entries dropped, all others kept) only in delete
mode. -/
theorem cleanupProject_dependency_prune (fs : PFS) (opts : CleanupOpts)
    (h : opts.removeDependencies = some true) :
    ((verifyProject (cleanupCore fs opts).fs opts.rootPath).remainingBase44ModuleReferences.length >
        0 →
      (cleanupProject fs opts).1.pkg = fs.pkg ∧
      (cleanupProject fs opts).2.removedDependencies = [] ∧
      (cleanupProject fs opts).2.skippedPaths =
        (cleanupCore fs opts).skippedPaths ++
          [⟨"package.json", pruneBlockedReason
            (verifyProject (cleanupCore fs opts).fs
              opts.rootPath).remainingBase44ModuleReferences.length⟩]) ∧
    ((verifyProject (cleanupCore fs opts).fs opts.rootPath).remainingBase44ModuleReferences.length =
        0 →
      (opts.mode ≠ some CMode.delete → (cleanupProject fs opts).1.pkg = fs.pkg) ∧
      (fs.pkg = none → (cleanupProject fs opts).1.pkg = fs.pkg ∧
        (cleanupProject fs opts).2.removedDependencies = []) ∧
      (∀ pkg, fs.pkg = some pkg →
        (∀ nm, nm ∈ (cleanupProject fs opts).2.removedDependencies ↔
          (strContains (jsToLower nm) "base44" = true ∧ nm ∈ pkgSectionNames pkg)) ∧
        (opts.mode = some CMode.delete →
          ∃ q, (cleanupProject fs opts).1.pkg = some q ∧
            (∀ d ∈ q.dependencies, strContains (jsToLower d.1) "base44" = false) ∧
            (∀ d ∈ q.devDependencies, strContains (jsToLower d.1) "base44" = false) ∧
            (∀ d ∈ q.peerDependencies, strContains (jsToLower d.1) "base44" = false) ∧
            (∀ d ∈ q.optionalDependencies, strContains (jsToLower d.1) "base44" = false) ∧
            (∀ d ∈ pkg.dependencies, strContains (jsToLower d.1) "base44" = false →
              d ∈ q.dependencies) ∧
            (∀ d ∈ pkg.devDependencies, strContains (jsToLower d.1) "base44" = false →
              d ∈ q.devDependencies) ∧
            (∀ d ∈ pkg.peerDependencies, strContains (jsToLower d.1) "base44" = false →
              d ∈ q.peerDependencies) ∧
            (∀ d ∈ pkg.optionalDependencies, strContains (jsToLower d.1) "base44" = false →
              d ∈ q.optionalDependencies)))) := by
  have hpkg3 : (cleanupCore fs opts).fs.pkg = fs.pkg := cleanupCore_pkg fs opts
  constructor
  · intro hn
    rw [cleanupProject_eq_blocked fs opts h hn]
    exact ⟨hpkg3, rfl, rfl⟩
  · intro hn0
    have hn : ¬ ((verifyProject (cleanupCore fs opts).fs
        opts.rootPath).remainingBase44ModuleReferences.length > 0) := by omega
    cases hfs : fs.pkg with
    | none =>
      rw [cleanupProject_eq_clean_none fs opts h hn (hpkg3.trans hfs)]
      refine ⟨fun _ => hpkg3.trans hfs, fun _ => ⟨hpkg3.trans hfs, rfl⟩, ?_⟩
      intro pkg hpkg
      exact absurd hpkg (by simp)
    | some pkg =>
      have hout := cleanupProject_eq_clean_some fs opts pkg h hn (hpkg3.trans hfs)
      refine ⟨?_, ?_, ?_⟩
      · intro hmode
        rw [hout]
        have hb : (opts.mode.getD CMode.dryRun = CMode.delete) = False := by
          cases hm : opts.mode with
          | none => simp [Option.getD]
          | some m =>
            cases m with
            | dryRun => simp [Option.getD]
            | delete => exact absurd hm hmode
        simp only [hb, decide_False, Bool.and_false, Bool.false_eq_true, if_false]
        exact hpkg3.trans hfs
      · intro hcontra
        exact absurd hcontra (by simp)
      · intro pkg2 hpkg2
        injection hpkg2 with hpe
        subst hpe
        constructor
        · intro nm
          rw [hout]
          simp only []
          by_cases hlen : (removeMatchingDeps pkg
              (fun name => strContains (jsToLower name) "base44")).1.length > 0
          · rw [if_pos hlen, sortStrings_mem, dedupFirst_mem]
            exact removeMatchingDeps_mem pkg _ nm
          · rw [if_neg hlen]
            have hnil : (removeMatchingDeps pkg
                (fun name => strContains (jsToLower name) "base44")).1 = [] := by
              cases hl : (removeMatchingDeps pkg
                  (fun name => strContains (jsToLower name) "base44")).1 with
              | nil => rfl
              | cons a l => rw [hl] at hlen; exact absurd (by simp) hlen
            constructor
            · intro hmem
              exact absurd hmem (by simp)
            · rintro ⟨hp, hsec⟩
              have hmm := (removeMatchingDeps_mem pkg
                (fun name => strContains (jsToLower name) "base44") nm).mpr ⟨hp, hsec⟩
              rw [hnil] at hmm
              exact absurd hmm (by simp)
        · intro hmode
          rw [hout]
          have hb : opts.mode.getD CMode.dryRun = CMode.delete := by rw [hmode]; rfl
          by_cases hlen : (removeMatchingDeps pkg
              (fun name => strContains (jsToLower name) "base44")).1.length > 0
          · rw [if_pos (by simp [hb, hlen])]
            refine ⟨(removeMatchingDeps pkg
              (fun name => strContains (jsToLower name) "base44")).2, rfl, ?_, ?_, ?_, ?_,
              ?_, ?_, ?_, ?_⟩
            · intro d hd
              simpa using (List.mem_filter.mp hd).2
            · intro d hd
              simpa using (List.mem_filter.mp hd).2
            · intro d hd
              simpa using (List.mem_filter.mp hd).2
            · intro d hd
              simpa using (List.mem_filter.mp hd).2
            · intro d hd hp
              exact List.mem_filter.mpr ⟨hd, by simp [hp]⟩
            · intro d hd hp
              exact List.mem_filter.mpr ⟨hd, by simp [hp]⟩
            · intro d hd hp
              exact List.mem_filter.mpr ⟨hd, by simp [hp]⟩
            · intro d hd hp
              exact List.mem_filter.mpr ⟨hd, by simp [hp]⟩
          · rw [if_neg (by simp [hlen])]
            rw [hpkg3.trans hfs]
            have hnil : (removeMatchingDeps pkg
                (fun name => strContains (jsToLower name) "base44")).1 = [] := by
              cases hl : (removeMatchingDeps pkg
                  (fun name => strContains (jsToLower name) "base44")).1 with
              | nil => rfl
              | cons a l => rw [hl] at hlen; exact absurd (by simp) hlen
            have hnomatch : ∀ nm, ¬ (strContains (jsToLower nm) "base44" = true ∧
                nm ∈ pkgSectionNames pkg) := by
              intro nm hc
              have hmm := (removeMatchingDeps_mem pkg
                (fun name => strContains (jsToLower name) "base44") nm).mpr hc
              rw [hnil] at hmm
              exact absurd hmm (by simp)
            refine ⟨pkg, rfl, ?_, ?_, ?_, ?_, fun d hd _ => hd, fun d hd _ => hd,
              fun d hd _ => hd, fun d hd _ => hd⟩
            · intro d hd
              by_contra hc
              exact hnomatch d.1 ⟨by simpa using hc, by
                unfold pkgSectionNames
                exact List.mem_map.mpr ⟨d, by simp [hd], rfl⟩⟩
            · intro d hd
              by_contra hc
              exact hnomatch d.1 ⟨by simpa using hc, by
                unfold pkgSectionNames
                exact List.mem_map.mpr ⟨d, by simp [hd], rfl⟩⟩
            · intro d hd
              by_contra hc
              exact hnomatch d.1 ⟨by simpa using hc, by
                unfold pkgSectionNames
                exact List.mem_map.mpr ⟨d, by simp [hd], rfl⟩⟩
            · intro d hd
              by_contra hc
              exact hnomatch d.1 ⟨by simpa using hc, by
                unfold pkgSectionNames
                exact List.mem_map.mpr ⟨d, by simp [hd], rfl⟩⟩

/-- Witness for C5: on a verify-clean project in delete mode, the legacy
manifest entries are removed and reported. -/
theorem cleanupProject_dependency_prune_witness :
    "base44" ∈ (cleanupProject pruneFS pruneOpts).2.removedDependencies ∧
    (cleanupProject pruneFS pruneOpts).1.pkg =
      some ⟨[("react", "^18.0.0")], [], [], []⟩ := by
  have hthm := cleanupProject_dependency_prune pruneFS pruneOpts rfl
  have hclean := hthm.2 (by decide)
  have hsome := hclean.2.2 ⟨[("base44", "^1.0.0"), ("react", "^18.0.0")],
    [("@base44/sdk", "^1.0.0")], [], []⟩ rfl
  constructor
  · exact (hsome.1 "base44").mpr ⟨by decide, by decide⟩
  · rcases hsome.2 rfl with ⟨q, hq, hq1, hq2, hq3, hq4, hk1, hk2, hk3, hk4⟩
    rw [hq]
    have : q = ⟨[("react", "^18.0.0")], [], [], []⟩ := by
      have hqeval : (cleanupProject pruneFS pruneOpts).1.pkg =
          some ⟨[("react", "^18.0.0")], [], [], []⟩ := by decide
      rw [hq] at hqeval
      exact Option.some_inj.mp hqeval
    rw [this]

theorem cleanupCandidateStep_shape (importedBy : List (String × List String)) (root : String)
    (mode : CMode) (st : CleanState) (abs : String) :
    (cleanupCandidateStep importedBy root mode st abs).quarantinedPaths = st.quarantinedPaths ∧
    ∀ p ∈ (cleanupCandidateStep importedBy root mode st abs).deletedPaths,
      p ∈ st.deletedPaths ∨
        ∃ a, p = relPathOf root a ∧
          (basenameOf a = ".base44" ∨ reverseIndexGet importedBy a = []) := by
  constructor
  · simp only [cleanupCandidateStep]
    repeat' split
    all_goals rfl
  · intro p hp
    simp only [cleanupCandidateStep] at hp
    repeat' split at hp
    all_goals first
      | exact Or.inl hp
      | (have hp' : p ∈ st.deletedPaths ++ [relPathOf root abs] := hp
         rcases List.mem_append.mp hp' with h | h
         · exact Or.inl h
         · refine Or.inr ⟨abs, List.mem_singleton.mp h, ?_⟩
           first
           | exact Or.inl (not_not.mp (by assumption))
           | exact Or.inr (List.eq_nil_of_length_eq_zero
               (Nat.eq_zero_of_not_pos (by assumption))))

theorem foldl_candidateStep_shape (importedBy : List (String × List String)) (root : String)
    (mode : CMode) (l : List String) :
    ∀ st : CleanState,
      ((l.foldl (cleanupCandidateStep importedBy root mode) st).quarantinedPaths
          = st.quarantinedPaths) ∧
      ∀ p ∈ (l.foldl (cleanupCandidateStep importedBy root mode) st).deletedPaths,
        p ∈ st.deletedPaths ∨
          ∃ a, p = relPathOf root a ∧
            (basenameOf a = ".base44" ∨ reverseIndexGet importedBy a = []) := by
  induction l with
  | nil => exact fun st => ⟨rfl, fun p hp => Or.inl hp⟩
  | cons x xs ih =>
    intro st
    rw [List.foldl_cons]
    obtain ⟨hq, hd⟩ := ih (cleanupCandidateStep importedBy root mode st x)
    obtain ⟨hq0, hd0⟩ := cleanupCandidateStep_shape importedBy root mode st x
    refine ⟨hq.trans hq0, fun p hp => ?_⟩
    rcases hd p hp with h | h
    · exact hd0 p h
    · exact Or.inr h

theorem functionsDirStage_shape (fs0 : PFS) (opts : CleanupOpts) :
    (functionsDirStage fs0 opts).quarantinedPaths = [] ∧
    ∀ p ∈ (functionsDirStage fs0 opts).deletedPaths,
      p = relPathOf opts.rootPath (pathJoin opts.rootPath "functions") := by
  simp only [functionsDirStage]
  split
  · exact ⟨rfl, fun p hp => List.mem_singleton.mp hp⟩
  · exact ⟨rfl, fun p hp => absurd hp (List.not_mem_nil p)⟩

theorem aggressiveStage_off (opts : CleanupOpts) (st : CleanState)
    (h : opts.aggressive.getD false = false) :
    aggressiveStage opts st = st := by
  simp [aggressiveStage, h]

theorem cleanupProject_result_lists (fs0 : PFS) (opts : CleanupOpts) :
    (cleanupProject fs0 opts).2.deletedPaths = (cleanupCore fs0 opts).deletedPaths ∧
    (cleanupProject fs0 opts).2.quarantinedPaths = (cleanupCore fs0 opts).quarantinedPaths := by
  simp only [cleanupProject]
  repeat' split
  all_goals exact ⟨rfl, rfl⟩

/-- C1: the safety invariant fails in aggressive mode: `src/legacy.ts` is
still imported by `src/app.ts` through the relative specifier `./legacy`
(the reverse import index records the importer), yet the aggressive pass
quarantines and removes it, because the aggressive loop never consults the
reverse import index. -/
theorem cleanup_aggressive_quarantines_imported_file :
    reverseIndexGet (buildImportReverseIndex aggrFS "/p") "/p/src/legacy.ts"
        = ["/p/src/app.ts"] ∧
    (cleanupProject aggrFS aggrOptsDelete).2.quarantinedPaths = ["src/legacy.ts"] ∧
    (cleanupProject aggrFS aggrOptsDelete).2.deletedPaths = ["src/legacy.ts"] ∧
    fileExists (cleanupProject aggrFS aggrOptsDelete).1 "/p/src/legacy.ts" = false := by
  decide

/-- C1 (amended): with aggressive mode off, cleanup never quarantines
anything, and every deleted path is the functions-directory rule's target,
a candidate directory named `.base44` (the coarse directory-level rule), or
a candidate file with no importer recorded in the reverse import index —
so no still-imported file is deleted except through the directory rules. -/
theorem cleanup_import_safety_nonaggressive (fs0 : PFS) (opts : CleanupOpts)
    (hagg : opts.aggressive.getD false = false) :
    (cleanupProject fs0 opts).2.quarantinedPaths = [] ∧
    ∀ p ∈ (cleanupProject fs0 opts).2.deletedPaths,
      p = relPathOf opts.rootPath (pathJoin opts.rootPath "functions") ∨
      ∃ a, p = relPathOf opts.rootPath a ∧
        (basenameOf a = ".base44" ∨
          reverseIndexGet (buildImportReverseIndex fs0 opts.rootPath) a = []) := by
  obtain ⟨hd, hq⟩ := cleanupProject_result_lists fs0 opts
  have hcore : cleanupCore fs0 opts
      = candidateStage fs0 opts (functionsDirStage fs0 opts) := by
    rw [cleanupCore, aggressiveStage_off opts _ hagg]
  obtain ⟨hq1, hd1⟩ := functionsDirStage_shape fs0 opts
  obtain ⟨hq2, hd2⟩ := foldl_candidateStep_shape
    (buildImportReverseIndex fs0 opts.rootPath) opts.rootPath
    (opts.mode.getD .dryRun) (cleanupCandidates (functionsDirStage fs0 opts).fs opts.rootPath)
    (functionsDirStage fs0 opts)
  constructor
  · rw [hq, hcore, candidateStage]
    exact hq2.trans hq1
  · intro p hp
    rw [hd, hcore, candidateStage] at hp
    rcases hd2 p hp with h | h
    · exact Or.inl (hd1 p h)
    · exact Or.inr h

/-- Witness for the amended C1 on a concrete non-aggressive delete run. -/
theorem cleanup_import_safety_nonaggressive_witness :
    (cleanupProject mixedImportCleanupFS plainDeleteOpts).2.quarantinedPaths = [] :=
  (cleanup_import_safety_nonaggressive mixedImportCleanupFS plainDeleteOpts rfl).1

theorem cleanupCandidateStep_fs_dry (importedBy : List (String × List String)) (root : String)
    (st : CleanState) (abs : String) :
    (cleanupCandidateStep importedBy root .dryRun st abs).fs = st.fs := by
  simp only [cleanupCandidateStep]
  repeat' split
  all_goals first | rfl | (rename_i hm; exact absurd hm (by decide))

theorem foldl_candidateStep_fs_dry (importedBy : List (String × List String)) (root : String)
    (l : List String) :
    ∀ st : CleanState,
      (l.foldl (cleanupCandidateStep importedBy root .dryRun) st).fs = st.fs := by
  induction l with
  | nil => exact fun st => rfl
  | cons x xs ih =>
    intro st
    rw [List.foldl_cons]
    exact (ih _).trans (cleanupCandidateStep_fs_dry importedBy root st x)

theorem aggressiveStep_fs_dry (root q : String) (st : CleanState) (abs : String) :
    (aggressiveStep root q .dryRun st abs).fs = st.fs := by
  simp only [aggressiveStep]
  repeat' split
  all_goals first | rfl | (rename_i hmode; exact absurd hmode (by simp))

theorem foldl_aggressiveStep_fs_dry (root q : String) (l : List String) :
    ∀ st : CleanState, (l.foldl (aggressiveStep root q .dryRun) st).fs = st.fs := by
  induction l with
  | nil => exact fun st => rfl
  | cons x xs ih =>
    intro st
    rw [List.foldl_cons]
    exact (ih _).trans (aggressiveStep_fs_dry root q st x)

theorem functionsDirStage_fs_dry (fs0 : PFS) (opts : CleanupOpts)
    (hmode : opts.mode.getD .dryRun = .dryRun) :
    (functionsDirStage fs0 opts).fs = fs0 := by
  simp only [functionsDirStage, hmode]
  split
  all_goals simp

theorem cleanupCore_fs_dry (fs0 : PFS) (opts : CleanupOpts)
    (hmode : opts.mode.getD .dryRun = .dryRun) :
    (cleanupCore fs0 opts).fs = fs0 := by
  rw [cleanupCore]
  have h2 : (candidateStage fs0 opts (functionsDirStage fs0 opts)).fs = fs0 := by
    rw [candidateStage, hmode]
    exact (foldl_candidateStep_fs_dry _ _ _ _).trans
      (functionsDirStage_fs_dry fs0 opts hmode)
  rw [aggressiveStage]
  split
  · rw [hmode]
    exact (foldl_aggressiveStep_fs_dry _ _ _ _).trans h2
  · exact h2

theorem cleanupProject_fst_dry (fs0 : PFS) (opts : CleanupOpts)
    (hmode : opts.mode.getD .dryRun = .dryRun) :
    (cleanupProject fs0 opts).1 = (cleanupCore fs0 opts).fs := by
  have hdec : decide (CMode.dryRun = CMode.delete) = false := rfl
  simp only [cleanupProject, hmode, hdec, Bool.and_false, Bool.false_eq_true, if_false]
  repeat' split
  all_goals rfl

/-- C10: dry-run is not observationally equivalent to delete mode on the
reported deletions: with aggressive mode on, delete mode records the
quarantined file in `deletedPaths` while the dry run only records a
would-quarantine skip, so the two modes disagree on `deletedPaths`. -/
theorem cleanup_dryRun_deletedPaths_differ :
    (cleanupProject aggrFS aggrOptsDry).2.deletedPaths = [] ∧
    (cleanupProject aggrFS aggrOptsDelete).2.deletedPaths = ["src/legacy.ts"] ∧
    (cleanupProject aggrFS aggrOptsDry).2.skippedPaths.map (fun e => e.path)
      = ["src/legacy.ts"] := by
  decide

/-- C10 (amended): in dry-run mode (the default), `cleanupProject` performs
no filesystem mutation at all: the returned store is the input store — no
file or directory is removed, nothing is moved to the quarantine
directory, and the manifest is never rewritten. -/
theorem cleanupProject_dryRun_no_mutation (fs0 : PFS) (opts : CleanupOpts)
    (hmode : opts.mode.getD .dryRun = .dryRun) :
    (cleanupProject fs0 opts).1 = fs0 :=
  (cleanupProject_fst_dry fs0 opts hmode).trans (cleanupCore_fs_dry fs0 opts hmode)

/-- Witness for the amended C10 on a concrete aggressive dry run. -/
theorem cleanupProject_dryRun_no_mutation_witness :
    (cleanupProject aggrFS aggrOptsDry).1 = aggrFS :=
  cleanupProject_dryRun_no_mutation aggrFS aggrOptsDry rfl

theorem sfFind?_update (l : List (String × SFile)) (p : String) (sf : SFile)
    (h : l.any (fun f => f.1 = p) = true) :
    (l.map (fun f => if f.1 = p then (p, sf) else f)).find? (fun f => f.1 = p)
      = some (p, sf) := by
  induction l with
  | nil => simp at h
  | cons x xs ih =>
    rw [List.map_cons]
    by_cases hx : x.1 = p
    · rw [if_pos hx]
      exact List.find?_cons_of_pos _ (by simp)
    · rw [if_neg hx]
      rw [List.find?_cons_of_neg _ (by simp [hx])]
      apply ih
      rw [List.any_cons] at h
      simpa [hx] using h

theorem sfFind?_append_last (l : List (String × SFile)) (p : String) (sf : SFile)
    (h : l.any (fun f => f.1 = p) = false) :
    (l ++ [(p, sf)]).find? (fun f => f.1 = p) = some (p, sf) := by
  induction l with
  | nil =>
    rw [List.nil_append]
    exact List.find?_cons_of_pos _ (by simp)
  | cons x xs ih =>
    rw [List.cons_append]
    rw [List.any_cons] at h
    have hx : ¬ x.1 = p := by
      intro hc
      simp [hc] at h
    rw [List.find?_cons_of_neg _ (by simp [hx])]
    apply ih
    simpa [hx] using h

theorem sfFind?_map_ne (l : List (String × SFile)) (p q : String) (sf : SFile)
    (hq : q ≠ p) :
    (l.map (fun f => if f.1 = p then (p, sf) else f)).find? (fun f => f.1 = q)
      = l.find? (fun f => f.1 = q) := by
  induction l with
  | nil => rfl
  | cons x xs ih =>
    rw [List.map_cons]
    by_cases hx : x.1 = p
    · rw [if_pos hx]
      rw [List.find?_cons_of_neg _ (by simp [Ne.symm hq])]
      rw [ih]
      rw [List.find?_cons_of_neg _ (by
        simp only [decide_eq_true_eq]
        intro hc
        exact hq (hc.symm.trans hx))]
    · rw [if_neg hx]
      by_cases hxq : x.1 = q
      · rw [List.find?_cons_of_pos _ (by simp [hxq]),
          List.find?_cons_of_pos _ (by simp [hxq])]
      · rw [List.find?_cons_of_neg _ (by simp [hxq]),
          List.find?_cons_of_neg _ (by simp [hxq])]
        exact ih

theorem sfFind?_append_ne (l : List (String × SFile)) (p q : String) (sf : SFile)
    (hq : q ≠ p) :
    (l ++ [(p, sf)]).find? (fun f => f.1 = q) = l.find? (fun f => f.1 = q) := by
  induction l with
  | nil =>
    rw [List.nil_append]
    rw [List.find?_cons_of_neg _ (by simp [Ne.symm hq])]
  | cons x xs ih =>
    rw [List.cons_append]
    by_cases hxq : x.1 = q
    · rw [List.find?_cons_of_pos _ (by simp [hxq]),
        List.find?_cons_of_pos _ (by simp [hxq])]
    · rw [List.find?_cons_of_neg _ (by simp [hxq]),
        List.find?_cons_of_neg _ (by simp [hxq])]
      exact ih

theorem lookupSF_writeSF_same (fs : CFS) (p : String) (sf : SFile) :
    lookupSF (writeSF fs p sf) p = some sf := by
  rw [writeSF]
  split
  · rename_i h
    show ((fs.files.map (fun f => if f.1 = p then (p, sf) else f)).find?
        (fun f => f.1 = p)).map (fun f => f.2) = some sf
    rw [sfFind?_update fs.files p sf h]
    rfl
  · rename_i h
    show (((fs.files ++ [(p, sf)]).find? (fun f => f.1 = p)).map (fun f => f.2)) = some sf
    rw [sfFind?_append_last fs.files p sf (Bool.eq_false_iff.mpr h)]
    rfl

theorem lookupSF_writeSF_other (fs : CFS) (p q : String) (sf : SFile) (hq : q ≠ p) :
    lookupSF (writeSF fs p sf) q = lookupSF fs q := by
  rw [writeSF]
  split
  · show ((fs.files.map (fun f => if f.1 = p then (p, sf) else f)).find?
        (fun f => f.1 = q)).map (fun f => f.2) = lookupSF fs q
    rw [sfFind?_map_ne fs.files p q sf hq]
    rfl
  · show (((fs.files ++ [(p, sf)]).find? (fun f => f.1 = q)).map (fun f => f.2))
        = lookupSF fs q
    rw [sfFind?_append_ne fs.files p q sf hq]
    rfl

theorem convertProject_fst (fs0 : CFS) (opts : ConvertOpts) :
    ∃ fs1, (convertProject fs0 opts).1
      = writeSF (writeSF fs1
          (pathJoin opts.rootPath (opts.entryPath.getD "src/backend/index.ts"))
          (backendEntrySFile (opts.backendMode.getD .supabase)))
        (pathJoin opts.rootPath (opts.envExamplePath.getD ".env.example"))
        (rawSFile envExampleText) :=
  ⟨_, rfl⟩

/-- C2: convert is not idempotent in its report: on the empty project the
first run reports no modified files and generates the backend entry; the
second run classifies the generated entry itself as legacy-importing
(its import of the adapter package contains the substring the classifier
looks for), reports it in `modifiedFiles` while rewriting zero calls, and
only the unconditional regeneration restores the entry byte-for-byte. -/
theorem convert_second_run_reports_backend_entry :
    (convertProject emptyCFS convOpts).2.modifiedFiles = [] ∧
    (convertProject (convertProject emptyCFS convOpts).1 convOpts).2.modifiedFiles
      = ["src/backend/index.ts"] ∧
    (convertProject (convertProject emptyCFS convOpts).1 convOpts).2.rewrittenByFile
      = [("src/backend/index.ts", 0)] ∧
    ((lookupSF (convertProject (convertProject emptyCFS convOpts).1 convOpts).1
        "/p/src/backend/index.ts").map renderSFile)
      = some (backendEntryText .supabase) := by
  decide

/-- C2 (amended): every run of convert ends by unconditionally regenerating
the backend entry and the example environment file with fixed contents, so
after any run (in particular a second, immediate run) the two generated
files hold exactly the canonical generated text — regeneration is
byte-identical across runs. -/
theorem convertProject_regenerates_fixed_outputs (fs0 : CFS) (opts : ConvertOpts)
    (hne : pathJoin opts.rootPath (opts.entryPath.getD "src/backend/index.ts")
         ≠ pathJoin opts.rootPath (opts.envExamplePath.getD ".env.example")) :
    lookupSF (convertProject fs0 opts).1
        (pathJoin opts.rootPath (opts.entryPath.getD "src/backend/index.ts"))
      = some (backendEntrySFile (opts.backendMode.getD .supabase)) ∧
    lookupSF (convertProject fs0 opts).1
        (pathJoin opts.rootPath (opts.envExamplePath.getD ".env.example"))
      = some (rawSFile envExampleText) := by
  obtain ⟨fs1, hfs⟩ := convertProject_fst fs0 opts
  rw [hfs]
  constructor
  · rw [lookupSF_writeSF_other _ _ _ _ hne, lookupSF_writeSF_same]
  · rw [lookupSF_writeSF_same]

/-- Witness for the amended C2 on the empty project with default options. -/
theorem convertProject_regenerates_fixed_outputs_witness :
    lookupSF (convertProject emptyCFS convOpts).1
        (pathJoin convOpts.rootPath (convOpts.entryPath.getD "src/backend/index.ts"))
      = some (backendEntrySFile (convOpts.backendMode.getD .supabase)) :=
  (convertProject_regenerates_fixed_outputs emptyCFS convOpts (by decide)).1

theorem map_congr_mem {α β : Type} (l : List α) (f g : α → β)
    (h : ∀ a ∈ l, f a = g a) : l.map f = l.map g := by
  induction l with
  | nil => rfl
  | cons x xs ih =>
    rw [List.map_cons, List.map_cons, h x (List.mem_cons_self x xs),
      ih (fun a ha => h a (List.mem_cons_of_mem x ha))]

theorem dedupFirstAux_nodup (l : List String) : ∀ seen, (dedupFirstAux seen l).Nodup := by
  induction l with
  | nil => intro seen; simp [dedupFirstAux]
  | cons x xs ih =>
    intro seen
    rw [dedupFirstAux]
    split
    · exact ih seen
    · refine List.nodup_cons.mpr ⟨?_, ih (x :: seen)⟩
      intro hc
      exact ((dedupFirstAux_mem (x :: seen) xs x).mp hc).2 (List.mem_cons_self x seen)

theorem dedupFirst_nodup (l : List String) : (dedupFirst l).Nodup :=
  dedupFirstAux_nodup l []

theorem mergeUniqueStr_nodup (a b : List String) : (mergeUniqueStr a b).Nodup :=
  dedupFirst_nodup _

theorem stableSort_nodup (le : α → α → Bool) (l : List α) (h : l.Nodup) :
    (stableSort le l).Nodup :=
  (stableSort_perm le l).nodup_iff.mpr h

theorem addEntity_inv (es : List (String × InferredEntity)) (n : String)
    (nf : List String) (file : String)
    (h1 : (es.map (fun e => e.1)).Nodup) (h2 : ∀ e ∈ es, e.2.name = e.1) :
    ((addEntity es n nf file).map (fun e => e.1)).Nodup ∧
    (∀ e ∈ addEntity es n nf file, e.2.name = e.1) ∧
    (∀ k ∈ (addEntity es n nf file).map (fun e => e.1),
      k ∈ es.map (fun e => e.1) ∨ k = n) := by
  induction es with
  | nil =>
    refine ⟨by simp [addEntity], ?_, ?_⟩
    · intro e he
      rw [addEntity] at he
      have he' := List.mem_singleton.mp he
      rw [he']
    · intro k hk
      rw [addEntity] at hk
      right
      simpa using hk
  | cons x xs ih =>
    obtain ⟨k, e⟩ := x
    rw [List.map_cons] at h1
    have h1x : k ∉ xs.map (fun e => e.1) := (List.nodup_cons.mp h1).1
    have h1xs : (xs.map (fun e => e.1)).Nodup := (List.nodup_cons.mp h1).2
    have h2x : e.name = k := h2 (k, e) (List.mem_cons_self (k, e) xs)
    have h2xs : ∀ e' ∈ xs, e'.2.name = e'.1 :=
      fun e' he' => h2 e' (List.mem_cons_of_mem (k, e) he')
    rw [addEntity]
    by_cases hk : k = n
    · rw [if_pos hk]
      refine ⟨?_, ?_, ?_⟩
      · rw [List.map_cons]
        exact List.nodup_cons.mpr ⟨h1x, h1xs⟩
      · intro e' he'
        rcases List.mem_cons.mp he' with rfl | hmem
        · exact hk.symm
        · exact h2xs e' hmem
      · intro k' hk'
        rw [List.map_cons] at hk'
        rw [List.map_cons]
        exact Or.inl hk'
    · rw [if_neg hk]
      obtain ⟨ih1, ih2, ih3⟩ := ih h1xs h2xs
      refine ⟨?_, ?_, ?_⟩
      · rw [List.map_cons]
        refine List.nodup_cons.mpr ⟨?_, ih1⟩
        intro hc
        rcases ih3 _ hc with hin | hn
        · exact h1x hin
        · exact hk hn
      · intro e' he'
        rcases List.mem_cons.mp he' with rfl | hmem
        · exact h2x
        · exact ih2 e' hmem
      · intro k' hk'
        rw [List.map_cons] at hk'
        rcases List.mem_cons.mp hk' with rfl | hmem
        · exact Or.inl (by rw [List.map_cons]; exact List.mem_cons_self _ _)
        · rcases ih3 k' hmem with hin | hn
          · exact Or.inl (by rw [List.map_cons]; exact List.mem_cons_of_mem _ hin)
          · exact Or.inr hn

theorem addServerFunction_inv (fns : List (String × InferredServerFunction))
    (n file snippet : String)
    (h1 : (fns.map (fun f => f.1)).Nodup) (h2 : ∀ f ∈ fns, f.2.name = f.1) :
    ((addServerFunction fns n file snippet).map (fun f => f.1)).Nodup ∧
    (∀ f ∈ addServerFunction fns n file snippet, f.2.name = f.1) ∧
    (∀ k ∈ (addServerFunction fns n file snippet).map (fun f => f.1),
      k ∈ fns.map (fun f => f.1) ∨ k = n) := by
  induction fns with
  | nil =>
    refine ⟨by simp [addServerFunction], ?_, ?_⟩
    · intro f hf
      rw [addServerFunction] at hf
      have hf' := List.mem_singleton.mp hf
      rw [hf']
    · intro k hk
      rw [addServerFunction] at hk
      right
      simpa using hk
  | cons x xs ih =>
    obtain ⟨k, f⟩ := x
    rw [List.map_cons] at h1
    have h1x : k ∉ xs.map (fun f => f.1) := (List.nodup_cons.mp h1).1
    have h1xs : (xs.map (fun f => f.1)).Nodup := (List.nodup_cons.mp h1).2
    have h2x : f.name = k := h2 (k, f) (List.mem_cons_self (k, f) xs)
    have h2xs : ∀ f' ∈ xs, f'.2.name = f'.1 :=
      fun f' hf' => h2 f' (List.mem_cons_of_mem (k, f) hf')
    rw [addServerFunction]
    by_cases hk : k = n
    · rw [if_pos hk]
      refine ⟨?_, ?_, ?_⟩
      · rw [List.map_cons]
        exact List.nodup_cons.mpr ⟨h1x, h1xs⟩
      · intro f' hf'
        rcases List.mem_cons.mp hf' with rfl | hmem
        · exact hk.symm
        · exact h2xs f' hmem
      · intro k' hk'
        rw [List.map_cons] at hk'
        rw [List.map_cons]
        exact Or.inl hk'
    · rw [if_neg hk]
      obtain ⟨ih1, ih2, ih3⟩ := ih h1xs h2xs
      refine ⟨?_, ?_, ?_⟩
      · rw [List.map_cons]
        refine List.nodup_cons.mpr ⟨?_, ih1⟩
        intro hc
        rcases ih3 _ hc with hin | hn
        · exact h1x hin
        · exact hk hn
      · intro f' hf'
        rcases List.mem_cons.mp hf' with rfl | hmem
        · exact h2x
        · exact ih2 f' hmem
      · intro k' hk'
        rw [List.map_cons] at hk'
        rcases List.mem_cons.mp hk' with rfl | hmem
        · exact Or.inl (by rw [List.map_cons]; exact List.mem_cons_self _ _)
        · rcases ih3 k' hmem with hin | hn
          · exact Or.inl (by rw [List.map_cons]; exact List.mem_cons_of_mem _ hin)
          · exact Or.inr hn

theorem entityFoldStep_inv (r : String) (es : List (String × InferredEntity))
    (c : Expr × List Expr)
    (h1 : (es.map (fun e => e.1)).Nodup) (h2 : ∀ e ∈ es, e.2.name = e.1) :
    ((entityFoldStep r es c).map (fun e => e.1)).Nodup ∧
      ∀ e ∈ entityFoldStep r es c, e.2.name = e.1 := by
  simp only [entityFoldStep]
  repeat' split
  all_goals first
    | exact ⟨h1, h2⟩
    | exact ⟨(addEntity_inv _ _ _ _ h1 h2).1, (addEntity_inv _ _ _ _ h1 h2).2.1⟩

theorem serverFnFoldStep_inv (r : String) (fns : List (String × InferredServerFunction))
    (c : Expr × List Expr)
    (h1 : (fns.map (fun f => f.1)).Nodup) (h2 : ∀ f ∈ fns, f.2.name = f.1) :
    ((serverFnFoldStep r fns c).map (fun f => f.1)).Nodup ∧
      ∀ f ∈ serverFnFoldStep r fns c, f.2.name = f.1 := by
  simp only [serverFnFoldStep]
  repeat' split
  all_goals first
    | exact ⟨h1, h2⟩
    | exact ⟨(addServerFunction_inv _ _ _ _ h1 h2).1,
        (addServerFunction_inv _ _ _ _ h1 h2).2.1⟩

theorem foldl_entityFoldStep_inv (r : String) (calls : List (Expr × List Expr)) :
    ∀ es, (es.map (fun e => e.1)).Nodup → (∀ e ∈ es, e.2.name = e.1) →
      ((calls.foldl (entityFoldStep r) es).map (fun e => e.1)).Nodup ∧
        ∀ e ∈ calls.foldl (entityFoldStep r) es, e.2.name = e.1 := by
  induction calls with
  | nil => exact fun es h1 h2 => ⟨h1, h2⟩
  | cons c cs ih =>
    intro es h1 h2
    rw [List.foldl_cons]
    obtain ⟨g1, g2⟩ := entityFoldStep_inv r es c h1 h2
    exact ih _ g1 g2

theorem foldl_serverFnFoldStep_inv (r : String) (calls : List (Expr × List Expr)) :
    ∀ fns, (fns.map (fun f => f.1)).Nodup → (∀ f ∈ fns, f.2.name = f.1) →
      ((calls.foldl (serverFnFoldStep r) fns).map (fun f => f.1)).Nodup ∧
        ∀ f ∈ calls.foldl (serverFnFoldStep r) fns, f.2.name = f.1 := by
  induction calls with
  | nil => exact fun fns h1 h2 => ⟨h1, h2⟩
  | cons c cs ih =>
    intro fns h1 h2
    rw [List.foldl_cons]
    obtain ⟨g1, g2⟩ := serverFnFoldStep_inv r fns c h1 h2
    exact ih _ g1 g2

theorem analyzeFileStep_inv (rootPath : String) (importSources : List String)
    (st : AnalyzeState) (abs : String) (sf : SFile)
    (h : analyzeStateInv st) :
    analyzeStateInv (analyzeFileStep rootPath importSources st abs sf) := by
  obtain ⟨h1, h2, h3, h4, h5, h6, h7, h8⟩ := h
  simp only [analyzeFileStep]
  split
  · exact ⟨h1, h2, h3, h4, h5, h6, h7, h8⟩
  · obtain ⟨e1, e2⟩ := foldl_entityFoldStep_inv (relPathOf rootPath abs)
      (fileCallNodes sf) st.entities h5 h6
    obtain ⟨f1, f2⟩ := foldl_serverFnFoldStep_inv (relPathOf rootPath abs)
      (fileCallNodes sf) st.serverFunctions h7 h8
    exact ⟨mergeUniqueStr_nodup _ _, mergeUniqueStr_nodup _ _,
      stableSort_pairwise strLe strLe_trans strLe_total _,
      stableSort_nodup _ _ (mergeUniqueStr_nodup _ _),
      e1, e2, f1, f2⟩

theorem analyzeFold_inv (fs : CFS) (rootPath : String) (importSources : List String)
    (l : List String) :
    ∀ st, analyzeStateInv st →
      analyzeStateInv (l.foldl (fun st abs =>
        match lookupSF fs abs with
        | none => st
        | some sf => analyzeFileStep rootPath importSources st abs sf) st) := by
  induction l with
  | nil => exact fun st h => h
  | cons x xs ih =>
    intro st h
    rw [List.foldl_cons]
    apply ih
    show analyzeStateInv (match lookupSF fs x with
      | none => st
      | some sf => analyzeFileStep rootPath importSources st x sf)
    cases hls : lookupSF fs x with
    | none => exact h
    | some sf => exact analyzeFileStep_inv rootPath importSources st x sf h

theorem sorted_values_names_nodup {γ : Type} (nameOf : γ → String)
    (es : List (String × γ))
    (h1 : (es.map (fun e => e.1)).Nodup) (h2 : ∀ e ∈ es, nameOf e.2 = e.1) :
    ((stableSort (fun a b => strLe (nameOf a) (nameOf b))
      (es.map (fun e => e.2))).map nameOf).Nodup := by
  have hperm := (stableSort_perm (fun a b => strLe (nameOf a) (nameOf b))
    (es.map (fun e => e.2))).map nameOf
  refine hperm.nodup_iff.mpr ?_
  rw [List.map_map]
  rw [map_congr_mem es (nameOf ∘ fun e => e.2) (fun e => e.1) (fun a ha => h2 a ha)]
  exact h1

/-- C8: `analyzeProject`'s `importSources` list is not sorted: it
accumulates matched specifiers in file-iteration order, so a project whose
first file (alphabetically) imports `zzbase44` and whose second imports
`base44` yields `["zzbase44", "base44"]`, which differs from its own
sorted form. -/
theorem analyze_importSources_unsorted :
    (analyzeProject unsortedAnalyzeFS "/p" none).importSources = ["zzbase44", "base44"] ∧
    sortStrings (analyzeProject unsortedAnalyzeFS "/p" none).importSources
      ≠ (analyzeProject unsortedAnalyzeFS "/p" none).importSources := by
  decide

/-- C8 (amended): the finalized report lists that ARE normalized:
analyze's `categoriesDetected` and `envVars` are sorted and duplicate-free,
`entities` and `serverFunctions` are sorted by name with duplicate-free
names, `importSources` and `filesWithImports` are duplicate-free (but kept
in file-iteration order, not re-sorted), and convert's `modifiedFiles` and
remaining-reference lists are sorted (lexicographically, resp. by file). -/
theorem report_lists_sorted_deduped (fs cfs : CFS) (root : String)
    (srcs : Option (List String)) (copts : ConvertOpts) :
    (analyzeProject fs root srcs).importSources.Nodup ∧
    (analyzeProject fs root srcs).filesWithImports.Nodup ∧
    List.Pairwise (fun a b => strLe a b = true)
      (analyzeProject fs root srcs).categoriesDetected ∧
    (analyzeProject fs root srcs).categoriesDetected.Nodup ∧
    List.Pairwise (fun a b => strLe a.name b.name = true)
      (analyzeProject fs root srcs).entities ∧
    ((analyzeProject fs root srcs).entities.map (fun e => e.name)).Nodup ∧
    List.Pairwise (fun a b => strLe a.name b.name = true)
      (analyzeProject fs root srcs).serverFunctions ∧
    ((analyzeProject fs root srcs).serverFunctions.map (fun f => f.name)).Nodup ∧
    List.Pairwise (fun a b => strLe a b = true) (analyzeProject fs root srcs).envVars ∧
    (analyzeProject fs root srcs).envVars.Nodup ∧
    List.Pairwise (fun a b => strLe a b = true) (convertProject cfs copts).2.modifiedFiles ∧
    List.Pairwise (fun a b => strLe a.file b.file = true)
      (convertProject cfs copts).2.remainingBase44ModuleReferences := by
  have hinit : analyzeStateInv ⟨[], [], [], [], [], [], []⟩ :=
    ⟨List.nodup_nil, List.nodup_nil, List.Pairwise.nil, List.nodup_nil,
      List.nodup_nil, fun e he => absurd he (List.not_mem_nil e),
      List.nodup_nil, fun f hf => absurd hf (List.not_mem_nil f)⟩
  obtain ⟨h1, h2, h3, h4, h5, h6, h7, h8⟩ :=
    analyzeFold_inv fs root (srcs.getD DEFAULT_BASE44_IMPORT_SOURCES)
      (findProjectSourceFilesC fs root) ⟨[], [], [], [], [], [], []⟩ hinit
  refine ⟨h1, h2, h3, h4, ?_, ?_, ?_, ?_, ?_, ?_, ?_, ?_⟩
  · exact stableSort_pairwise (fun a b : InferredEntity => strLe a.name b.name)
      (fun a b c hab hbc => strLe_trans a.name b.name c.name hab hbc)
      (fun a b => strLe_total a.name b.name) _
  · exact sorted_values_names_nodup (fun e => e.name) _ h5 h6
  · exact stableSort_pairwise (fun a b : InferredServerFunction => strLe a.name b.name)
      (fun a b c hab hbc => strLe_trans a.name b.name c.name hab hbc)
      (fun a b => strLe_total a.name b.name) _
  · exact sorted_values_names_nodup (fun f => f.name) _ h7 h8
  · exact stableSort_pairwise strLe strLe_trans strLe_total _
  · exact stableSort_nodup strLe _ (dedupFirst_nodup _)
  · exact stableSort_pairwise strLe strLe_trans strLe_total _
  · exact stableSort_pairwise (fun a b : ModuleRef => strLe a.file b.file)
      (fun a b c hab hbc => strLe_trans a.file b.file c.file hab hbc)
      (fun a b => strLe_total a.file b.file) _

end B44
